import Mathlib

/-!
Verification of the import/export subsystem of the flare-stack-blog repository.

The TypeScript sources are shallowly embedded as Lean definitions:

* JavaScript strings become `String`, with all operations performed on the
  underlying character list (`String.data`) so that every definition is
  executable and kernel-reducible;
* JavaScript numbers that the code treats as integers (ids, timestamps in
  milliseconds, read times) become `Int` or `Nat`;
* heterogeneous JavaScript values (frontmatter metadata records) become the
  inductive type `JValue`;
* fallible operations return `Option` or `Except`;
* external collaborators that are not part of the repository (the YAML
  parser, the markdown-to-tree converter, the JS `Date` codec, the blob
  store key generator) are universally-quantified function parameters, so
  every theorem holds for an arbitrary implementation of them.

Each claim theorem carries a doc comment naming the claim.
-/

/-! ## Character-list string utilities (JS string semantics) -/

/-- Splits a character list on every occurrence of a separator character,
mirroring JS `String.prototype.split` with a one-character separator:
the result is always non-empty, and `"".split(sep)` yields `[""]`. -/
def splitOnCharAux (sep : Char) : List Char → List Char → List (List Char)
  | [], acc => [acc.reverse]
  | c :: rest, acc =>
    if c = sep then acc.reverse :: splitOnCharAux sep rest []
    else splitOnCharAux sep rest (c :: acc)

/-- `splitOnChar sep l` is JS `l.split(sep)` for a one-character separator. -/
def splitOnChar (sep : Char) (l : List Char) : List (List Char) :=
  splitOnCharAux sep l []

/-- JS `s.split(sep)` for a one-character separator, on Lean strings. -/
def jsSplit (sep : Char) (s : String) : List String :=
  (splitOnChar sep s.data).map List.asString

/-- JS `Array.prototype.join(sep)` on strings. -/
def jsJoin (sep : String) : List String → String
  | [] => ""
  | [a] => a
  | a :: rest => a ++ sep ++ jsJoin sep rest

/-- Whether one character list is a prefix of another (decidable). -/
def listIsPrefix : List Char → List Char → Bool
  | [], _ => true
  | _ :: _, [] => false
  | a :: as, b :: bs => a = b && listIsPrefix as bs

/-- JS `s.startsWith(p)`, executable on the character lists. -/
def jsStartsWith (s p : String) : Bool :=
  listIsPrefix p.data s.data

/-- JS `s.endsWith(p)`, executable on the character lists. -/
def jsEndsWith (s p : String) : Bool :=
  listIsPrefix p.data.reverse s.data.reverse

/-- JS `s.slice(n)` / Lean `String.drop`, at the character-list level. -/
def jsDrop (s : String) (n : Nat) : String :=
  (s.data.drop n).asString

/-- The JS whitespace characters relevant to `trim` / `trimEnd` in this
code base (space, tab, carriage return, newline). -/
def jsIsWs (c : Char) : Bool :=
  c = ' ' || c = '\t' || c = '\r' || c = '\n'

/-- JS `String.prototype.trim`. -/
def jsTrim (s : String) : String :=
  (((s.data.dropWhile jsIsWs).reverse.dropWhile jsIsWs).reverse).asString

/-- JS `String.prototype.trimEnd`. -/
def jsTrimEnd (s : String) : String :=
  ((s.data.reverse.dropWhile jsIsWs).reverse).asString

/-! ## `resolveRelativePath` (src/features/import-export/workflows/import-helpers.ts)

`resolveRelativePath(base, relative)` first strips one leading `./` from
the reference (`relative.replace(/^\.\//, "")`), returns the cleaned
reference when the base is empty, and otherwise folds the `/`-separated
segments of the reference over the segments of the base: `..` pops the
last base segment, `.` is skipped, anything else is appended. -/

/-- `relative.replace(/^\.\//, "")`: strip one leading `./`. -/
def stripLeadingDotSlash (s : String) : String :=
  if jsStartsWith s "./" then jsDrop s 2 else s

/-- One step of the segment fold in `resolveRelativePath`:
`..` pops (JS `Array.prototype.pop`, a no-op on an empty array),
`.` is skipped, any other segment is pushed. -/
def resolveSegStep (parts : List String) (segment : String) : List String :=
  if segment = ".." then parts.dropLast
  else if segment = "." then parts
  else parts ++ [segment]

/-- Embedding of `resolveRelativePath` from
src/features/import-export/workflows/import-helpers.ts. -/
def resolveRelativePath (base relative : String) : String :=
  let cleaned := stripLeadingDotSlash relative
  if base = "" then cleaned
  else
    let parts := jsSplit '/' base
    jsJoin "/" ((jsSplit '/' cleaned).foldl resolveSegStep parts)

/-! ## Claim C6 -/

/-- Claim C6: `resolveRelativePath` strips one leading `./` from the
reference, then folds the reference segments over the base segments
(`..` pops, `.` is a no-op, anything else appends); an empty base yields
the reference as-is minus the leading `./`.  In particular
`resolveRelativePath "a/b/c" "../../img.jpg" = "a/img.jpg"` and
`resolveRelativePath "" "./x.jpg" = "x.jpg"`. -/
theorem resolveRelativePath_spec :
    resolveRelativePath "a/b/c" "../../img.jpg" = "a/img.jpg" ∧
    resolveRelativePath "" "./x.jpg" = "x.jpg" ∧
    (∀ rel : String, resolveRelativePath "" rel = stripLeadingDotSlash rel) ∧
    (∀ base rel : String, base ≠ "" →
      resolveRelativePath base rel =
        jsJoin "/"
          (((jsSplit '/' (stripLeadingDotSlash rel))).foldl resolveSegStep
            (jsSplit '/' base))) := by
  refine ⟨by decide, by decide, ?_, ?_⟩
  · intro rel
    simp [resolveRelativePath]
  · intro base rel hb
    simp [resolveRelativePath, hb]

/-! ## JavaScript value model

Frontmatter metadata records (`Record<string, unknown>`) are modelled as
association lists of `JValue`s.  JS numbers that the code treats as
integers are modelled as `Int`; a `Date` object is modelled by its
millisecond timestamp. -/

/-- A JavaScript value as far as `normalizeFrontmatter` inspects one. -/
inductive JValue where
  | undef
  | null
  | bool (b : Bool)
  | num (n : Int)
  | str (s : String)
  | arr (xs : List JValue)
  | date (ms : Int)

/-- A JavaScript plain object, as an association list. -/
def JRecord := List (String × JValue)

/-- JS property access `data[k]`: the bound value, else `undefined`. -/
def getField (data : JRecord) (k : String) : JValue :=
  match data.find? (fun p => p.1 = k) with
  | some p => p.2
  | none => JValue.undef

/-- JS nullish coalescing `a ?? b`. -/
def jsCoalesce (a b : JValue) : JValue :=
  match a with
  | .undef => b
  | .null => b
  | v => v

/-- JS truthiness for the values of the model (`NaN` is not modelled). -/
def jsTruthy : JValue → Bool
  | .undef => false
  | .null => false
  | .bool b => b
  | .num n => n ≠ 0
  | .str s => s ≠ ""
  | .arr _ => true
  | .date _ => true

/-! ## Frontmatter normalization
(src/features/import-export/utils/frontmatter.ts)

The JS `Date` codec is external to the repository, so it is abstracted:
`dateParse` models `new Date(string)` (`none` for an invalid date) and
`dateFormat` models `Date.prototype.toISOString`. -/

/-- Embedding of the private helper `toISOString` of frontmatter.ts:
a `Date` is formatted; a string is parsed and, when valid, re-formatted;
everything else yields `undefined`. -/
def toISOStringJS (dateParse : String → Option Int) (dateFormat : Int → String) :
    JValue → Option String
  | .date ms => some (dateFormat ms)
  | .str s => (dateParse s).map dateFormat
  | _ => none

/-- The canonical frontmatter record (`PostFrontmatter`,
src/features/import-export/import-export.service.ts). -/
structure PostFrontmatter where
  title : String
  slug : String
  summary : Option String
  status : String
  publishedAt : Option String
  createdAt : Option String
  updatedAt : Option String
  readTimeInMinutes : Int
  tags : List String
deriving Repr, DecidableEq

/-- The intermediate `mapped` record built by `normalizeFrontmatter`
before schema validation; `status` is always assigned. -/
structure MappedFrontmatter where
  title : Option String
  slug : Option String
  summary : Option String
  status : String
  publishedAt : Option String
  createdAt : Option String
  updatedAt : Option String
  readTimeInMinutes : Option Int
  tags : Option (List String)
deriving Repr, DecidableEq

/-- `mapped.title`: only an actual string is accepted. -/
def titleOf (data : JRecord) : Option String :=
  match getField data "title" with
  | .str s => some s
  | _ => none

/-- The last non-empty `/`-separated segment of a path, else the path
itself (`segments[segments.length - 1] ?? slugSource`). -/
def extractLastSegment (s : String) : String :=
  (((jsSplit '/' s).filter (fun seg => seg ≠ "")).getLast?).getD s

/-- `mapped.slug`: first of `slug`/`url`/`permalink` (nullish
coalescing), reduced to its last path segment when it is a string. -/
def slugOf (data : JRecord) : Option String :=
  match jsCoalesce (getField data "slug")
      (jsCoalesce (getField data "url") (getField data "permalink")) with
  | .str s => some (extractLastSegment s)
  | _ => none

/-- `mapped.summary`: first of `summary`/`description`/`excerpt`. -/
def summaryOf (data : JRecord) : Option String :=
  match jsCoalesce (getField data "summary")
      (jsCoalesce (getField data "description") (getField data "excerpt")) with
  | .str s => some s
  | _ => none

/-- `mapped.status`: `draft === true` forces `"draft"`, else an explicit
status string is used verbatim, else `"published"`. -/
def statusOf (data : JRecord) : String :=
  match getField data "draft" with
  | .bool true => "draft"
  | _ =>
    match getField data "status" with
    | .str s => s
    | _ => "published"

/-- The shared date-field pattern of `normalizeFrontmatter`:
`if (src) mapped.x = toISOString(src)`.  A falsy source leaves the field
unset; `toISOString` may itself yield `undefined`. -/
def dateFieldOf (dateParse : String → Option Int) (dateFormat : Int → String)
    (src : JValue) : Option String :=
  if jsTruthy src then toISOStringJS dateParse dateFormat src else none

/-- `mapped.publishedAt`: first non-nullish of `publishedAt`/`date`/
`published_at`, run through `toISOString` when truthy. -/
def publishedAtOf (dateParse : String → Option Int) (dateFormat : Int → String)
    (data : JRecord) : Option String :=
  dateFieldOf dateParse dateFormat
    (jsCoalesce (getField data "publishedAt")
      (jsCoalesce (getField data "date") (getField data "published_at")))

/-- `mapped.createdAt`: first non-nullish of `createdAt`/`created_at`/`date`. -/
def createdAtOf (dateParse : String → Option Int) (dateFormat : Int → String)
    (data : JRecord) : Option String :=
  dateFieldOf dateParse dateFormat
    (jsCoalesce (getField data "createdAt")
      (jsCoalesce (getField data "created_at") (getField data "date")))

/-- `mapped.updatedAt`: first non-nullish of
`updatedAt`/`updated_at`/`lastmod`/`modified`. -/
def updatedAtOf (dateParse : String → Option Int) (dateFormat : Int → String)
    (data : JRecord) : Option String :=
  dateFieldOf dateParse dateFormat
    (jsCoalesce (getField data "updatedAt")
      (jsCoalesce (getField data "updated_at")
        (jsCoalesce (getField data "lastmod") (getField data "modified"))))

/-- `mapped.readTimeInMinutes`: only an actual number is accepted. -/
def readTimeOf (data : JRecord) : Option Int :=
  match getField data "readTimeInMinutes" with
  | .num n => some n
  | _ => none

/-- `mapped.tags`: `tags ?? categories`, keeping only string items. -/
def tagsOf (data : JRecord) : Option (List String) :=
  match jsCoalesce (getField data "tags") (getField data "categories") with
  | .arr xs =>
    some (xs.filterMap (fun v => match v with | .str s => some s | _ => none))
  | _ => none

/-- The `mapped` record assembled by `normalizeFrontmatter` before
validation. -/
def mapFrontmatterFields (dateParse : String → Option Int)
    (dateFormat : Int → String) (data : JRecord) : MappedFrontmatter where
  title := titleOf data
  slug := slugOf data
  summary := summaryOf data
  status := statusOf data
  publishedAt := publishedAtOf dateParse dateFormat data
  createdAt := createdAtOf dateParse dateFormat data
  updatedAt := updatedAtOf dateParse dateFormat data
  readTimeInMinutes := readTimeOf data
  tags := tagsOf data

/-- Modelled from the spec: `POST_STATUSES` lives in `@/lib/db/schema`,
which is not part of the provided sources; §3 of the design fixes the
status enum as `{draft, published}`. -/
def statusIsValid (s : String) : Bool :=
  s = "draft" || s = "published"

/-- Model of `PostFrontmatterSchema.safeParse`
(src/features/import-export/import-export.service.ts): `title` is
required, `status` must be a member of the status enum, and the
defaults `slug=""`, `readTimeInMinutes=1`, `tags=[]` are applied. -/
def postFrontmatterSchemaParse (m : MappedFrontmatter) : Option PostFrontmatter :=
  match m.title with
  | none => none
  | some t =>
    if statusIsValid m.status then
      some
        { title := t
          slug := m.slug.getD ""
          summary := m.summary
          status := m.status
          publishedAt := m.publishedAt
          createdAt := m.createdAt
          updatedAt := m.updatedAt
          readTimeInMinutes := m.readTimeInMinutes.getD 1
          tags := m.tags.getD [] }
    else none

/-- Embedding of `normalizeFrontmatter`
(src/features/import-export/utils/frontmatter.ts). -/
def normalizeFrontmatter (dateParse : String → Option Int)
    (dateFormat : Int → String) (data : JRecord) : Option PostFrontmatter :=
  postFrontmatterSchemaParse (mapFrontmatterFields dateParse dateFormat data)

/-- An optional string field as JS property access reports it: present
string or `undefined`. -/
def optStrToJValue : Option String → JValue
  | some s => JValue.str s
  | none => JValue.undef

/-- Re-reading a canonical record as a raw metadata record: every
canonical field under its canonical name, absent optionals reading back
as `undefined` exactly as JS property access would report them. -/
def PostFrontmatter.toRecord (m : PostFrontmatter) : JRecord :=
  [("title", JValue.str m.title),
   ("slug", JValue.str m.slug),
   ("summary", optStrToJValue m.summary),
   ("status", JValue.str m.status),
   ("publishedAt", optStrToJValue m.publishedAt),
   ("createdAt", optStrToJValue m.createdAt),
   ("updatedAt", optStrToJValue m.updatedAt),
   ("readTimeInMinutes", JValue.num m.readTimeInMinutes),
   ("tags", JValue.arr (m.tags.map JValue.str))]

/-- A trivial concrete instantiation of the external JS `Date` codec,
used to evaluate the model on concrete inputs. -/
def dateParse0 : String → Option Int := fun _ => none

/-- A trivial concrete instantiation of `Date.prototype.toISOString`. -/
def dateFormat0 : Int → String := fun _ => "1970-01-01T00:00:00.000Z"

/-! ## Facts about `splitOnChar` used for slug idempotence -/

/-- A list membership form of `List.getLast?`. -/
theorem mem_of_getLast?_eq_some {α : Type} {l : List α} {a : α}
    (h : l.getLast? = some a) : a ∈ l := by
  obtain ⟨hn, rfl⟩ := List.mem_getLast?_eq_getLast (l := l) (x := a) (by rw [h]; rfl)
  exact List.getLast_mem hn

/-- Splitting a list that contains no separator yields a single piece. -/
theorem splitOnCharAux_of_no_sep (sep : Char) :
    ∀ (l acc : List Char), (∀ c ∈ l, c ≠ sep) →
      splitOnCharAux sep l acc = [acc.reverse ++ l] := by
  intro l
  induction l with
  | nil => intro acc _; simp [splitOnCharAux]
  | cons c rest ih =>
    intro acc h
    have hc : c ≠ sep := h c (List.mem_cons_self _ _)
    simp only [splitOnCharAux, if_neg hc]
    rw [ih (c :: acc) (fun x hx => h x (List.mem_cons_of_mem _ hx))]
    simp

/-- Every piece produced by `splitOnCharAux` is separator-free, provided
the accumulator is. -/
theorem splitOnCharAux_pieces_no_sep (sep : Char) :
    ∀ (l acc : List Char), (∀ c ∈ acc, c ≠ sep) →
      ∀ t ∈ splitOnCharAux sep l acc, ∀ c ∈ t, c ≠ sep := by
  intro l
  induction l with
  | nil =>
    intro acc hacc t ht c hc
    simp only [splitOnCharAux, List.mem_singleton] at ht
    subst ht
    exact hacc c (List.mem_reverse.mp hc)
  | cons a rest ih =>
    intro acc hacc t ht c hc
    by_cases ha : a = sep
    · simp only [splitOnCharAux, if_pos ha, List.mem_cons] at ht
      rcases ht with rfl | ht
      · exact hacc c (List.mem_reverse.mp hc)
      · exact ih [] (by simp) t ht c hc
    · simp only [splitOnCharAux, if_neg ha] at ht
      refine ih (a :: acc) ?_ t ht c hc
      intro x hx
      rcases List.mem_cons.mp hx with rfl | hx
      · exact ha
      · exact hacc x hx

/-- Every piece produced by `splitOnChar` is separator-free. -/
theorem splitOnChar_pieces_no_sep (sep : Char) (l : List Char) :
    ∀ t ∈ splitOnChar sep l, ∀ c ∈ t, c ≠ sep :=
  splitOnCharAux_pieces_no_sep sep l [] (by simp)

/-- Splitting a separator-free string yields that string as sole piece. -/
theorem jsSplit_of_no_sep (sep : Char) (s : String)
    (h : ∀ c ∈ s.data, c ≠ sep) : jsSplit sep s = [s] := by
  unfold jsSplit splitOnChar
  rw [splitOnCharAux_of_no_sep sep s.data [] h]
  rfl

/-- The slug extraction `segments[segments.length - 1] ?? slugSource` is
idempotent: extracting again from an extracted slug changes nothing. -/
theorem extractLastSegment_idem (s : String) :
    extractLastSegment (extractLastSegment s) = extractLastSegment s := by
  rcases h : ((jsSplit '/' s).filter (fun seg => seg ≠ "")).getLast? with _ | t
  · have hs : extractLastSegment s = s := by
      unfold extractLastSegment
      rw [h]
      rfl
    rw [hs]
    exact hs
  · have hs : extractLastSegment s = t := by
      unfold extractLastSegment
      rw [h]
      rfl
    rw [hs]
    have htmem := mem_of_getLast?_eq_some h
    have htne : t ≠ "" := by
      have := (List.mem_filter.mp htmem).2
      simpa using this
    have htsplit : t ∈ jsSplit '/' s := (List.mem_filter.mp htmem).1
    obtain ⟨p, hp, rfl⟩ := List.mem_map.mp htsplit
    have hnosep : ∀ c ∈ p.asString.data, c ≠ '/' := by
      intro c hc
      exact splitOnChar_pieces_no_sep '/' s.data p hp c hc
    unfold extractLastSegment
    rw [jsSplit_of_no_sep '/' p.asString hnosep]
    rw [List.filter_singleton]
    simp [htne]

/-! ## Inversion and construction lemmas for the schema validation -/

/-- Inversion: a successful schema validation pins down every field of
the canonical record in terms of the mapped record. -/
theorem postFrontmatterSchemaParse_inv (mp : MappedFrontmatter)
    (m : PostFrontmatter) (h : postFrontmatterSchemaParse mp = some m) :
    mp.title = some m.title ∧ m.status = mp.status ∧
      statusIsValid mp.status = true ∧ m.slug = mp.slug.getD "" ∧
      m.summary = mp.summary ∧ m.publishedAt = mp.publishedAt ∧
      m.createdAt = mp.createdAt ∧ m.updatedAt = mp.updatedAt ∧
      m.readTimeInMinutes = mp.readTimeInMinutes.getD 1 ∧
      m.tags = mp.tags.getD [] := by
  unfold postFrontmatterSchemaParse at h
  rcases ht : mp.title with _ | t
  · simp [ht] at h
  · simp only [ht] at h
    by_cases hv : statusIsValid mp.status = true
    · rw [if_pos hv] at h
      injection h with h2
      subst h2
      exact ⟨rfl, rfl, hv, rfl, rfl, rfl, rfl, rfl, rfl, rfl⟩
    · rw [if_neg hv] at h
      cases h

/-- Construction: with a present title and a valid status the schema
validation succeeds, producing the defaulted canonical record. -/
theorem postFrontmatterSchemaParse_builds (mp : MappedFrontmatter) (t : String)
    (ht : mp.title = some t) (hv : statusIsValid mp.status = true) :
    postFrontmatterSchemaParse mp =
      some ⟨t, mp.slug.getD "", mp.summary, mp.status, mp.publishedAt,
        mp.createdAt, mp.updatedAt, mp.readTimeInMinutes.getD 1,
        mp.tags.getD []⟩ := by
  unfold postFrontmatterSchemaParse
  simp only [ht]
  rw [if_pos hv]

/-! ## Claim C2 (corrected) -/

/-- The computed status fails the schema enum exactly when the draft
flag is not set and an explicit status string outside the enum is
present. -/
theorem statusIsValid_statusOf_false_iff (data : JRecord) :
    statusIsValid (statusOf data) = false ↔
      (getField data "draft" ≠ JValue.bool true ∧
        ∃ s, getField data "status" = JValue.str s ∧
          s ≠ "draft" ∧ s ≠ "published") := by
  unfold statusOf
  rcases hd : getField data "draft" with _ | _ | b | n | s | xs | ms
  case bool =>
    cases b
    · rcases hs : getField data "status" with _ | _ | b' | n' | s' | xs' | ms' <;>
        simp [statusIsValid, hs]
    · simp [statusIsValid]
  all_goals
    rcases hs : getField data "status" with _ | _ | b' | n' | s' | xs' | ms' <;>
      simp [statusIsValid, hs]

/-- The normalizer returns null exactly when the mapped title is absent
or the computed status fails the enum. -/
theorem normalizeFrontmatter_none_iff_raw (dateParse : String → Option Int)
    (dateFormat : Int → String) (data : JRecord) :
    normalizeFrontmatter dateParse dateFormat data = none ↔
      (titleOf data = none ∨ statusIsValid (statusOf data) = false) := by
  unfold normalizeFrontmatter postFrontmatterSchemaParse
  rcases ht : titleOf data with _ | t
  · have ht2 : (mapFrontmatterFields dateParse dateFormat data).title = none := ht
    simp [ht2, ht]
  · have ht2 : (mapFrontmatterFields dateParse dateFormat data).title = some t := ht
    rcases hv : statusIsValid (statusOf data) with _ | _
    · have hv2 : statusIsValid (mapFrontmatterFields dateParse dateFormat data).status = false := hv
      simp [ht2, ht, hv2, hv]
    · have hv2 : statusIsValid (mapFrontmatterFields dateParse dateFormat data).status = true := hv
      simp [ht2, ht, hv2, hv]

/-- Claim C2, counterexample: a record with a perfectly usable title but
an unrecognized `status` string is rejected by schema validation, so
`normalizeFrontmatter` returns null although a title exists. -/
theorem normalizeFrontmatter_none_with_title_cex :
    normalizeFrontmatter dateParse0 dateFormat0
        [("title", JValue.str "T"), ("status", JValue.str "x")] = none ∧
    titleOf [("title", JValue.str "T"), ("status", JValue.str "x")] = some "T" := by
  exact ⟨rfl, rfl⟩

/-- Claim C2 (amended): `normalizeFrontmatter` returns null exactly when
no usable title exists, or when the draft flag is not `true` and an
explicit `status` field holds a string other than `"draft"` or
`"published"` (the schema enum rejects the mapped record in that case,
title notwithstanding). -/
theorem normalizeFrontmatter_none_iff (dateParse : String → Option Int)
    (dateFormat : Int → String) (data : JRecord) :
    normalizeFrontmatter dateParse dateFormat data = none ↔
      (titleOf data = none ∨
        (getField data "draft" ≠ JValue.bool true ∧
          ∃ s, getField data "status" = JValue.str s ∧
            s ≠ "draft" ∧ s ≠ "published")) :=
  (normalizeFrontmatter_none_iff_raw dateParse dateFormat data).trans
    (or_congr_right (statusIsValid_statusOf_false_iff data))

/-! ## Claim C5 -/

/-- Claim C5: dialect mapping.  For every raw record containing a title:
if `draft: true` is present the normalized status is `"draft"` — even
when an explicit `status: "published"` is also present, since the draft
flag is consulted before the status field; and if `categories: ["A","B"]`
is present with no `tags` field, the normalized tag list is `["A","B"]`. -/
theorem normalizeFrontmatter_dialect_mapping (dateParse : String → Option Int)
    (dateFormat : Int → String) (data : JRecord) (t : String)
    (htitle : getField data "title" = JValue.str t) :
    (getField data "draft" = JValue.bool true →
      ∃ m, normalizeFrontmatter dateParse dateFormat data = some m ∧
        m.status = "draft") ∧
    (getField data "tags" = JValue.undef →
      getField data "categories" = JValue.arr [JValue.str "A", JValue.str "B"] →
      ∀ m, normalizeFrontmatter dateParse dateFormat data = some m →
        m.tags = ["A", "B"]) := by
  have ht2 : (mapFrontmatterFields dateParse dateFormat data).title = some t := by
    show titleOf data = some t
    unfold titleOf
    rw [htitle]
  constructor
  · intro hdraft
    have hst : (mapFrontmatterFields dateParse dateFormat data).status = "draft" := by
      show statusOf data = "draft"
      unfold statusOf
      rw [hdraft]
    have hv : statusIsValid (mapFrontmatterFields dateParse dateFormat data).status = true := by
      rw [hst]
      rfl
    refine ⟨_, postFrontmatterSchemaParse_builds _ t ht2 hv, ?_⟩
    exact hst
  · intro htags hcats m hm
    have htg : (mapFrontmatterFields dateParse dateFormat data).tags = some ["A", "B"] := by
      show tagsOf data = some ["A", "B"]
      unfold tagsOf
      rw [htags, hcats]
      rfl
    have hinv := postFrontmatterSchemaParse_inv _ m hm
    rw [hinv.2.2.2.2.2.2.2.2.2, htg]
    rfl

/-- Claim C5, witness: a concrete record with title, `draft: true`, an
explicit `status: "published"`, and `categories: ["A","B"]` with no
`tags` key, normalizing to a draft record with tags `["A","B"]`. -/
theorem normalizeFrontmatter_dialect_mapping_witness :
    getField [("title", JValue.str "T"), ("draft", JValue.bool true),
        ("status", JValue.str "published"),
        ("categories", JValue.arr [JValue.str "A", JValue.str "B"])] "title" =
      JValue.str "T" ∧
    (∃ m, normalizeFrontmatter dateParse0 dateFormat0
        [("title", JValue.str "T"), ("draft", JValue.bool true),
         ("status", JValue.str "published"),
         ("categories", JValue.arr [JValue.str "A", JValue.str "B"])] = some m ∧
      m.status = "draft" ∧ m.tags = ["A", "B"]) := by
  constructor
  · rfl
  · obtain ⟨h1, h2⟩ := normalizeFrontmatter_dialect_mapping dateParse0 dateFormat0
      [("title", JValue.str "T"), ("draft", JValue.bool true),
       ("status", JValue.str "published"),
       ("categories", JValue.arr [JValue.str "A", JValue.str "B"])] "T" rfl
    obtain ⟨m, hm, hst⟩ := h1 rfl
    exact ⟨m, hm, hst, h2 rfl rfl m hm⟩

/-! ## Claim C4: idempotence of `normalizeFrontmatter` -/

/-- Reading the canonical record back: the title maps to itself. -/
theorem titleOf_toRecord (m : PostFrontmatter) :
    titleOf m.toRecord = some m.title := rfl

/-- Reading the canonical record back: the slug re-runs last-segment
extraction on the stored slug. -/
theorem slugOf_toRecord (m : PostFrontmatter) :
    slugOf m.toRecord = some (extractLastSegment m.slug) := rfl

/-- Reading the canonical record back: the status maps to itself (no
draft key is present, and the status is a string). -/
theorem statusOf_toRecord (m : PostFrontmatter) :
    statusOf m.toRecord = m.status := rfl

/-- Reading the canonical record back: the read time maps to itself. -/
theorem readTimeOf_toRecord (m : PostFrontmatter) :
    readTimeOf m.toRecord = some m.readTimeInMinutes := rfl

/-- Reading the canonical record back: the summary maps to itself. -/
theorem summaryOf_toRecord (m : PostFrontmatter) :
    summaryOf m.toRecord = m.summary := by
  obtain ⟨mt, msl, msum, mst, mpb, mcr, mup, mrt, mtg⟩ := m
  cases msum <;> rfl

/-- Reading the canonical record back: the string tags all survive the
string filter. -/
theorem tagsOf_toRecord (m : PostFrontmatter) :
    tagsOf m.toRecord = some m.tags := by
  have h : tagsOf m.toRecord =
      some ((m.tags.map JValue.str).filterMap
        (fun v => match v with | .str s => some s | _ => none)) := rfl
  rw [h, List.filterMap_map]
  congr 1
  have : ((fun v => match v with | JValue.str s => some s | _ => none) ∘ JValue.str) =
      fun s => some s := rfl
  rw [this]
  exact List.filterMap_some m.tags

/-- Reading the canonical record back: `publishedAt` feeds the stored
string (or `undefined`) straight into the date-field pattern. -/
theorem publishedAtOf_toRecord (dateParse : String → Option Int)
    (dateFormat : Int → String) (m : PostFrontmatter) :
    publishedAtOf dateParse dateFormat m.toRecord =
      dateFieldOf dateParse dateFormat (optStrToJValue m.publishedAt) := by
  obtain ⟨mt, msl, msum, mst, mpb, mcr, mup, mrt, mtg⟩ := m
  cases mpb <;> rfl

/-- Reading the canonical record back: `createdAt`, as `publishedAt`. -/
theorem createdAtOf_toRecord (dateParse : String → Option Int)
    (dateFormat : Int → String) (m : PostFrontmatter) :
    createdAtOf dateParse dateFormat m.toRecord =
      dateFieldOf dateParse dateFormat (optStrToJValue m.createdAt) := by
  obtain ⟨mt, msl, msum, mst, mpb, mcr, mup, mrt, mtg⟩ := m
  cases mcr <;> rfl

/-- Reading the canonical record back: `updatedAt`, as `publishedAt`. -/
theorem updatedAtOf_toRecord (dateParse : String → Option Int)
    (dateFormat : Int → String) (m : PostFrontmatter) :
    updatedAtOf dateParse dateFormat m.toRecord =
      dateFieldOf dateParse dateFormat (optStrToJValue m.updatedAt) := by
  obtain ⟨mt, msl, msum, mst, mpb, mcr, mup, mrt, mtg⟩ := m
  cases mup <;> rfl

/-- Any defined date field is in the image of the formatter. -/
theorem toISOStringJS_some_ex (dateParse : String → Option Int)
    (dateFormat : Int → String) (v : JValue) (s : String)
    (h : toISOStringJS dateParse dateFormat v = some s) : ∃ ms, s = dateFormat ms := by
  cases v <;> simp [toISOStringJS] at h
  case date ms => exact ⟨ms, h.symm⟩
  case str s0 =>
    obtain ⟨ms, _, rfl⟩ := h
    exact ⟨ms, rfl⟩

/-- Any defined output of the date-field pattern is in the image of the
formatter. -/
theorem dateFieldOf_some_ex (dateParse : String → Option Int)
    (dateFormat : Int → String) (v : JValue) (s : String)
    (h : dateFieldOf dateParse dateFormat v = some s) : ∃ ms, s = dateFormat ms := by
  unfold dateFieldOf at h
  split at h
  · exact toISOStringJS_some_ex dateParse dateFormat _ s h
  · cases h

/-- Under a round-tripping date codec, re-running the date-field pattern
on a stored date field is the identity. -/
theorem dateFieldOf_stable (dateParse : String → Option Int)
    (dateFormat : Int → String)
    (hrt : ∀ ms, dateParse (dateFormat ms) = some ms)
    (hne : ∀ ms, dateFormat ms ≠ "") (x : Option String)
    (hprov : ∀ s, x = some s → ∃ ms, s = dateFormat ms) :
    dateFieldOf dateParse dateFormat (optStrToJValue x) = x := by
  cases x with
  | none => rfl
  | some s =>
    obtain ⟨ms, rfl⟩ := hprov s rfl
    simp [dateFieldOf, optStrToJValue, jsTruthy, hne ms, toISOStringJS, hrt ms]

/-- Re-extracting the last segment of a defaulted extracted slug is the
identity. -/
theorem extractLastSegment_slugOf_getD (data : JRecord) :
    extractLastSegment ((slugOf data).getD "") = (slugOf data).getD "" := by
  rcases hs : slugOf data with _ | s
  · rfl
  · have hex : ∃ s0, s = extractLastSegment s0 := by
      unfold slugOf at hs
      split at hs
      · injection hs with hs2
        exact ⟨_, hs2.symm⟩
      · cases hs
    obtain ⟨s0, rfl⟩ := hex
    show extractLastSegment (extractLastSegment s0) = extractLastSegment s0
    exact extractLastSegment_idem s0

/-- Claim C4: `normalizeFrontmatter` is idempotent.  If a raw record
normalizes to the canonical record `m`, then normalizing the fields of
`m` (read back as a raw record) yields `m` again.  The hypotheses state
that the external JS `Date` codec round-trips its own output and never
formats a date as the empty string — both true of `Date` within its
representable range. -/
theorem normalizeFrontmatter_idempotent (dateParse : String → Option Int)
    (dateFormat : Int → String)
    (hrt : ∀ ms, dateParse (dateFormat ms) = some ms)
    (hne : ∀ ms, dateFormat ms ≠ "") (data : JRecord) (m : PostFrontmatter)
    (h : normalizeFrontmatter dateParse dateFormat data = some m) :
    normalizeFrontmatter dateParse dateFormat m.toRecord = some m := by
  obtain ⟨ht, hstat, hv, hslug, hsum, hpub, hcre, hupd, hrtm, htags⟩ :=
    postFrontmatterSchemaParse_inv _ m h
  have hv2 : statusIsValid (mapFrontmatterFields dateParse dateFormat m.toRecord).status = true := by
    have h1 : (mapFrontmatterFields dateParse dateFormat m.toRecord).status = m.status :=
      statusOf_toRecord m
    rw [h1, hstat]
    exact hv
  have hb := postFrontmatterSchemaParse_builds
    (mapFrontmatterFields dateParse dateFormat m.toRecord) m.title
    (titleOf_toRecord m) hv2
  show postFrontmatterSchemaParse _ = some m
  rw [hb]
  congr 1
  have e_slug : (mapFrontmatterFields dateParse dateFormat m.toRecord).slug.getD "" = m.slug := by
    have h1 : (mapFrontmatterFields dateParse dateFormat m.toRecord).slug =
        some (extractLastSegment m.slug) := slugOf_toRecord m
    rw [h1]
    show extractLastSegment m.slug = m.slug
    rw [hslug]
    exact extractLastSegment_slugOf_getD data
  have e_sum : (mapFrontmatterFields dateParse dateFormat m.toRecord).summary = m.summary :=
    summaryOf_toRecord m
  have e_status : (mapFrontmatterFields dateParse dateFormat m.toRecord).status = m.status :=
    statusOf_toRecord m
  have e_pub : (mapFrontmatterFields dateParse dateFormat m.toRecord).publishedAt =
      m.publishedAt := by
    have h1 : (mapFrontmatterFields dateParse dateFormat m.toRecord).publishedAt =
        publishedAtOf dateParse dateFormat m.toRecord := rfl
    rw [h1, publishedAtOf_toRecord]
    refine dateFieldOf_stable dateParse dateFormat hrt hne m.publishedAt ?_
    intro s hx
    rw [hpub] at hx
    exact dateFieldOf_some_ex dateParse dateFormat _ s hx
  have e_cre : (mapFrontmatterFields dateParse dateFormat m.toRecord).createdAt =
      m.createdAt := by
    have h1 : (mapFrontmatterFields dateParse dateFormat m.toRecord).createdAt =
        createdAtOf dateParse dateFormat m.toRecord := rfl
    rw [h1, createdAtOf_toRecord]
    refine dateFieldOf_stable dateParse dateFormat hrt hne m.createdAt ?_
    intro s hx
    rw [hcre] at hx
    exact dateFieldOf_some_ex dateParse dateFormat _ s hx
  have e_upd : (mapFrontmatterFields dateParse dateFormat m.toRecord).updatedAt =
      m.updatedAt := by
    have h1 : (mapFrontmatterFields dateParse dateFormat m.toRecord).updatedAt =
        updatedAtOf dateParse dateFormat m.toRecord := rfl
    rw [h1, updatedAtOf_toRecord]
    refine dateFieldOf_stable dateParse dateFormat hrt hne m.updatedAt ?_
    intro s hx
    rw [hupd] at hx
    exact dateFieldOf_some_ex dateParse dateFormat _ s hx
  have e_rtm : (mapFrontmatterFields dateParse dateFormat m.toRecord).readTimeInMinutes.getD 1 =
      m.readTimeInMinutes := by
    have h1 : (mapFrontmatterFields dateParse dateFormat m.toRecord).readTimeInMinutes =
        some m.readTimeInMinutes := readTimeOf_toRecord m
    rw [h1]
    rfl
  have e_tags : (mapFrontmatterFields dateParse dateFormat m.toRecord).tags.getD [] =
      m.tags := by
    have h1 : (mapFrontmatterFields dateParse dateFormat m.toRecord).tags =
        some m.tags := tagsOf_toRecord m
    rw [h1]
    rfl
  obtain ⟨mt, msl, msum, mst, mpb, mcr, mup, mrt, mtg⟩ := m
  simp only [PostFrontmatter.mk.injEq]
  exact ⟨trivial, e_slug, e_sum, e_status, e_pub, e_cre, e_upd, e_rtm, e_tags⟩

/-- A concrete round-tripping instantiation of the external date codec:
a timestamp is marked with a sign letter and a unary digit string. -/
def intMark : Int → String
  | .ofNat n => "D" ++ (List.replicate n 'a').asString
  | .negSucc n => "N" ++ (List.replicate n 'a').asString

/-- The inverse of `intMark`. -/
def intUnmark (s : String) : Option Int :=
  match s.data with
  | 'D' :: rest =>
    if rest.all (fun c => c = 'a') then some (Int.ofNat rest.length) else none
  | 'N' :: rest =>
    if rest.all (fun c => c = 'a') then some (Int.negSucc rest.length) else none
  | _ => none

/-- Unary digit strings pass the all-digits check. -/
theorem replicate_all_eq (n : Nat) (c : Char) :
    (List.replicate n c).all (fun x => x = c) = true := by
  rw [List.all_eq_true]
  intro x hx
  simp [List.eq_of_mem_replicate hx]

/-- The concrete codec round-trips. -/
theorem intUnmark_intMark (ms : Int) : intUnmark (intMark ms) = some ms := by
  cases ms with
  | ofNat n =>
    have hd : ("D" ++ (List.replicate n 'a').asString).data =
        'D' :: List.replicate n 'a' := by
      rw [String.data_append]
      rfl
    show intUnmark ("D" ++ (List.replicate n 'a').asString) = some (Int.ofNat n)
    unfold intUnmark
    rw [hd]
    show (if ((List.replicate n 'a').all fun c => decide (c = 'a')) = true
        then some (Int.ofNat (List.replicate n 'a').length) else none) =
      some (Int.ofNat n)
    rw [if_pos (replicate_all_eq n 'a')]
    simp
  | negSucc n =>
    have hd : ("N" ++ (List.replicate n 'a').asString).data =
        'N' :: List.replicate n 'a' := by
      rw [String.data_append]
      rfl
    show intUnmark ("N" ++ (List.replicate n 'a').asString) = some (Int.negSucc n)
    unfold intUnmark
    rw [hd]
    show (if ((List.replicate n 'a').all fun c => decide (c = 'a')) = true
        then some (Int.negSucc (List.replicate n 'a').length) else none) =
      some (Int.negSucc n)
    rw [if_pos (replicate_all_eq n 'a')]
    simp

/-- The concrete codec never formats to the empty string. -/
theorem intMark_ne_empty (ms : Int) : intMark ms ≠ "" := by
  intro h
  cases ms with
  | ofNat n =>
    have h2 : ('D' :: List.replicate n 'a' : List Char) = [] := by
      have := congrArg String.data h
      rw [show intMark (Int.ofNat n) = "D" ++ (List.replicate n 'a').asString from rfl,
        String.data_append] at this
      exact this
    cases h2
  | negSucc n =>
    have h2 : ('N' :: List.replicate n 'a' : List Char) = [] := by
      have := congrArg String.data h
      rw [show intMark (Int.negSucc n) = "N" ++ (List.replicate n 'a').asString from rfl,
        String.data_append] at this
      exact this
    cases h2

/-- Claim C4, witness: a concrete record normalizing to a canonical
record that the normalizer maps to itself, under the concrete
round-tripping date codec. -/
theorem normalizeFrontmatter_idempotent_witness :
    (∀ ms, intUnmark (intMark ms) = some ms) ∧ (∀ ms, intMark ms ≠ "") ∧
    normalizeFrontmatter intUnmark intMark [("title", JValue.str "T")] =
      some ⟨"T", "", none, "published", none, none, none, 1, []⟩ ∧
    normalizeFrontmatter intUnmark intMark
        (PostFrontmatter.toRecord ⟨"T", "", none, "published", none, none, none, 1, []⟩) =
      some ⟨"T", "", none, "published", none, none, none, 1, []⟩ := by
  refine ⟨intUnmark_intMark, intMark_ne_empty, rfl, ?_⟩
  exact normalizeFrontmatter_idempotent intUnmark intMark intUnmark_intMark
    intMark_ne_empty [("title", JValue.str "T")] _ rfl

/-! ## Archive codec (src/features/import-export/utils/zip.ts)

The archive is modelled as an association list from path strings to byte
payloads (`List Nat`, each entry a byte value).  The underlying zip
container functions (`zipSync`, `unzipSync`, `strToU8`, `strFromU8`)
come from the external `fflate` library, so they are modelled from the
spec (§4.1: pure byte transforms with `parse(build(m)) == m`): a
concrete length-prefixed byte serialization of the entry list. -/

/-- UTF-8 encoding of one character. -/
def utf8EncodeChar (c : Char) : List Nat :=
  let n := c.toNat
  if n < 128 then [n]
  else if n < 2048 then [192 + n / 64, 128 + n % 64]
  else if n < 65536 then [224 + n / 4096, 128 + n / 64 % 64, 128 + n % 64]
  else [240 + n / 262144, 128 + n / 4096 % 64, 128 + n / 64 % 64, 128 + n % 64]

/-- Modelled from the spec: `strToU8` of the external `fflate` library —
the UTF-8 byte encoding of a string. -/
def strToU8 (s : String) : List Nat :=
  (s.data.map utf8EncodeChar).flatten

/-- One UTF-8 decoding step over a fuel counter (each step consumes at
least one byte, so the byte count is sufficient fuel); undecodable input
degrades to replacement output rather than failing, as JS text decoding
does. -/
def utf8DecodeAux : Nat → List Nat → List Char
  | 0, _ => []
  | _ + 1, [] => []
  | fuel + 1, b :: rest =>
    if b < 128 then Char.ofNat b :: utf8DecodeAux fuel rest
    else if b < 224 then
      match rest with
      | b2 :: rest2 =>
        Char.ofNat ((b - 192) * 64 + (b2 - 128)) :: utf8DecodeAux fuel rest2
      | [] => [Char.ofNat 65533]
    else if b < 240 then
      match rest with
      | b2 :: b3 :: rest3 =>
        Char.ofNat ((b - 224) * 4096 + (b2 - 128) * 64 + (b3 - 128)) ::
          utf8DecodeAux fuel rest3
      | _ => [Char.ofNat 65533]
    else
      match rest with
      | b2 :: b3 :: b4 :: rest4 =>
        Char.ofNat ((b - 240) * 262144 + (b2 - 128) * 4096 + (b3 - 128) * 64 +
            (b4 - 128)) :: utf8DecodeAux fuel rest4
      | _ => [Char.ofNat 65533]

/-- Modelled from the spec: `strFromU8` of the external `fflate`
library — UTF-8 text decoding of a byte payload. -/
def strFromU8 (l : List Nat) : String :=
  (utf8DecodeAux l.length l).asString

/-- An 8-byte little-endian length field. -/
def encNat8 (n : Nat) : List Nat :=
  [n % 256, n / 256 % 256, n / 65536 % 256, n / 256 ^ 3 % 256,
   n / 256 ^ 4 % 256, n / 256 ^ 5 % 256, n / 256 ^ 6 % 256, n / 256 ^ 7 % 256]

/-- Reads an 8-byte little-endian length field. -/
def decNat8 (l : List Nat) : Option (Nat × List Nat) :=
  match l with
  | b0 :: b1 :: b2 :: b3 :: b4 :: b5 :: b6 :: b7 :: rest =>
    some (b0 + 256 * (b1 + 256 * (b2 + 256 * (b3 + 256 * (b4 + 256 * (b5 +
      256 * (b6 + 256 * b7)))))), rest)
  | _ => none

/-- A path character as three little-endian bytes (code points are below
`2^24`). -/
def zipEncodeChar (c : Char) : List Nat :=
  [c.toNat % 256, c.toNat / 256 % 256, c.toNat / 65536 % 256]

/-- Decodes a three-byte path character. -/
def zipDecodeChar (b0 b1 b2 : Nat) : Char :=
  Char.ofNat (b0 + 256 * b1 + 65536 * b2)

/-- One serialized archive entry: path length, path characters, payload
length, payload bytes. -/
def zipEncodeEntry (p : String) (content : List Nat) : List Nat :=
  encNat8 p.data.length ++ (p.data.map zipEncodeChar).flatten ++
    encNat8 content.length ++ content

/-- Modelled from the spec: `zipSync` of the external `fflate` library —
serializes the path→bytes mapping into a flat byte sequence (§4.1's
archive build; compression is irrelevant to the contract and omitted). -/
def zipSync (files : List (String × List Nat)) : List Nat :=
  (files.map (fun pc => zipEncodeEntry pc.1 pc.2)).flatten

/-- Reads `n` three-byte path characters. -/
def readPathChars : Nat → List Nat → (List Char × List Nat)
  | 0, l => ([], l)
  | n + 1, b0 :: b1 :: b2 :: rest =>
    let r := readPathChars n rest
    (zipDecodeChar b0 b1 b2 :: r.1, r.2)
  | _ + 1, l => ([], l)

/-- One archive-entry parsing pass over a fuel counter (each entry
consumes at least one byte, so the byte count is sufficient fuel). -/
def unzipAux : Nat → List Nat → List (String × List Nat)
  | 0, _ => []
  | _ + 1, [] => []
  | fuel + 1, l =>
    match decNat8 l with
    | none => []
    | some (plen, l1) =>
      match decNat8 (readPathChars plen l1).2 with
      | none => []
      | some (clen, l3) =>
        ((readPathChars plen l1).1.asString, l3.take clen) ::
          unzipAux fuel (l3.drop clen)

/-- Modelled from the spec: `unzipSync` of the external `fflate`
library — parses the flat byte sequence back into the path→bytes
mapping. -/
def unzipSync (data : List Nat) : List (String × List Nat) :=
  unzipAux data.length data

/-- A `buildZip` input value: raw bytes or text
(`Record<string, Uint8Array | string>`). -/
inductive FileContent where
  | bytes (b : List Nat)
  | text (s : String)

/-- The byte payload `buildZip` prepares for one input value: text is
UTF-8 encoded, bytes pass through. -/
def fileContentBytes : FileContent → List Nat
  | .bytes b => b
  | .text s => strToU8 s

/-- Embedding of `buildZip` (src/features/import-export/utils/zip.ts):
converts string values with `strToU8`, then serializes. -/
def buildZip (files : List (String × FileContent)) : List Nat :=
  zipSync (files.map (fun pc => (pc.1, fileContentBytes pc.2)))

/-- Embedding of `parseZip` (src/features/import-export/utils/zip.ts). -/
def parseZip (data : List Nat) : List (String × List Nat) :=
  unzipSync data

/-! ## Claim C8: archive round-trip -/

/-- Reading back an 8-byte length field. -/
theorem decNat8_encNat8 (n : Nat) (rest : List Nat) (h : n < 2 ^ 64) :
    decNat8 (encNat8 n ++ rest) = some (n, rest) := by
  simp only [encNat8, List.cons_append, List.nil_append, decNat8]
  congr 2
  omega

/-- Reading back one three-byte path character. -/
theorem zipDecodeChar_encodeChar (c : Char) :
    zipDecodeChar (c.toNat % 256) (c.toNat / 256 % 256) (c.toNat / 65536 % 256) = c := by
  have hlt : c.toNat < 1114112 := by
    rcases c.valid with h | ⟨_, h2⟩
    · exact Nat.lt_trans h (by decide)
    · exact h2
  unfold zipDecodeChar
  have harith : c.toNat % 256 + 256 * (c.toNat / 256 % 256) +
      65536 * (c.toNat / 65536 % 256) = c.toNat := by omega
  rw [harith, Char.ofNat_toNat]

/-- Reading back a serialized path. -/
theorem readPathChars_encode (cs : List Char) (rest : List Nat) :
    readPathChars cs.length ((cs.map zipEncodeChar).flatten ++ rest) = (cs, rest) := by
  induction cs with
  | nil => rfl
  | cons c cs ih =>
    have hsplit : (((c :: cs).map zipEncodeChar).flatten ++ rest) =
        c.toNat % 256 :: c.toNat / 256 % 256 :: c.toNat / 65536 % 256 ::
          ((cs.map zipEncodeChar).flatten ++ rest) := by
      simp [zipEncodeChar]
    rw [hsplit, List.length_cons]
    show (zipDecodeChar (c.toNat % 256) (c.toNat / 256 % 256) (c.toNat / 65536 % 256) ::
        (readPathChars cs.length ((cs.map zipEncodeChar).flatten ++ rest)).1,
      (readPathChars cs.length ((cs.map zipEncodeChar).flatten ++ rest)).2) = (c :: cs, rest)
    rw [ih, zipDecodeChar_encodeChar c]

/-- The flattened three-byte encoding of a path triples its length. -/
theorem length_flatten_zipEncodeChar (l : List Char) :
    ((l.map zipEncodeChar).flatten).length = 3 * l.length := by
  induction l with
  | nil => rfl
  | cons c l ih =>
    simp [zipEncodeChar, ih]
    omega

/-- The byte length of one serialized entry. -/
theorem length_zipEncodeEntry (p : String) (c : List Nat) :
    (zipEncodeEntry p c).length = 16 + 3 * p.data.length + c.length := by
  simp only [zipEncodeEntry, List.length_append, length_flatten_zipEncodeChar,
    encNat8, List.length_cons, List.length_nil]
  omega

/-- Parsing one serialized entry at the head of the stream yields that
entry and continues with one less unit of fuel. -/
theorem unzipAux_entry (f : Nat) (p : String) (c : List Nat) (rest : List Nat)
    (hp : p.data.length < 2 ^ 64) (hc : c.length < 2 ^ 64) :
    unzipAux (f + 1) (zipEncodeEntry p c ++ rest) =
      (p, c) :: unzipAux f rest := by
  have hx : zipEncodeEntry p c ++ rest =
      p.data.length % 256 :: (p.data.length / 256 % 256 ::
        p.data.length / 65536 % 256 :: p.data.length / 256 ^ 3 % 256 ::
        p.data.length / 256 ^ 4 % 256 :: p.data.length / 256 ^ 5 % 256 ::
        p.data.length / 256 ^ 6 % 256 :: p.data.length / 256 ^ 7 % 256 ::
        ((p.data.map zipEncodeChar).flatten ++ (encNat8 c.length ++ (c ++ rest)))) := by
    simp [zipEncodeEntry, encNat8, List.append_assoc]
  have hy : zipEncodeEntry p c ++ rest =
      encNat8 p.data.length ++ ((p.data.map zipEncodeChar).flatten ++
        (encNat8 c.length ++ (c ++ rest))) := by
    simp [zipEncodeEntry, List.append_assoc]
  rw [hx, unzipAux, ← hx, hy]
  · rw [decNat8_encNat8 _ _ hp]
    show (match decNat8 (readPathChars p.data.length
        ((p.data.map zipEncodeChar).flatten ++ (encNat8 c.length ++ (c ++ rest)))).2 with
      | none => ([] : List (String × List Nat))
      | some (clen, l3) =>
        ((readPathChars p.data.length
            ((p.data.map zipEncodeChar).flatten ++
              (encNat8 c.length ++ (c ++ rest)))).1.asString,
          l3.take clen) :: unzipAux f (l3.drop clen)) = (p, c) :: unzipAux f rest
    rw [readPathChars_encode p.data]
    rw [decNat8_encNat8 _ _ hc]
    show (p.data.asString, (c ++ rest).take c.length) ::
        unzipAux f ((c ++ rest).drop c.length) = (p, c) :: unzipAux f rest
    rw [List.take_left, List.drop_left]
    rfl
  · intro h
    cases h

/-- Parsing the serialization of an entry list recovers the list, for
any sufficient fuel. -/
theorem unzipAux_zipSync (m : List (String × List Nat))
    (hlen : ∀ pc ∈ m, pc.1.data.length < 2 ^ 64 ∧ pc.2.length < 2 ^ 64) :
    ∀ fuel, (zipSync m).length ≤ fuel → unzipAux fuel (zipSync m) = m := by
  induction m with
  | nil =>
    intro fuel _
    cases fuel <;> rfl
  | cons pc m ih =>
    intro fuel hfuel
    obtain ⟨p, c⟩ := pc
    have hz : zipSync ((p, c) :: m) = zipEncodeEntry p c ++ zipSync m := by
      simp [zipSync]
    have hplen : p.data.length < 2 ^ 64 := (hlen (p, c) (by simp)).1
    have hclen : c.length < 2 ^ 64 := (hlen (p, c) (by simp)).2
    have hlz : (zipSync ((p, c) :: m)).length =
        16 + 3 * p.data.length + c.length + (zipSync m).length := by
      rw [hz, List.length_append, length_zipEncodeEntry]
    rcases fuel with _ | f
    · rw [hlz] at hfuel
      omega
    · rw [hz, unzipAux_entry f p c (zipSync m) hplen hclen]
      have hrest : (zipSync m).length ≤ f := by
        rw [hlz] at hfuel
        omega
      rw [ih (fun q hq => hlen q (List.mem_cons_of_mem _ hq)) f hrest]

/-- Claim C8: archive round-trip.  For every path→content mapping,
parsing the built archive recovers the mapping exactly, with string
payloads appearing UTF-8 encoded; zero-length payloads, nested paths and
non-ASCII paths/contents are all covered.  The length hypothesis is an
artifact of the fixed 8-byte length fields of the modelled container. -/
theorem parseZip_buildZip (m : List (String × FileContent))
    (hlen : ∀ pc ∈ m,
      pc.1.data.length < 2 ^ 64 ∧ (fileContentBytes pc.2).length < 2 ^ 64) :
    parseZip (buildZip m) = m.map (fun pc => (pc.1, fileContentBytes pc.2)) := by
  unfold parseZip buildZip unzipSync
  apply unzipAux_zipSync
  · intro pc hpc
    obtain ⟨pc0, hpc0, rfl⟩ := List.mem_map.mp hpc
    exact hlen pc0 hpc0
  · exact Nat.le_refl _

/-- Claim C8, witness: a concrete mapping with a zero-length payload, a
nested non-ASCII path, non-ASCII text content, and raw bytes, satisfying
the length bounds and round-tripping. -/
theorem parseZip_buildZip_witness :
    (∀ pc ∈ [("posts/导出/index.md", FileContent.text "héllo 世界"),
        ("empty.bin", FileContent.bytes []),
        ("img/raw.bin", FileContent.bytes [0, 1, 128, 255])],
      pc.1.data.length < 2 ^ 64 ∧ (fileContentBytes pc.2).length < 2 ^ 64) ∧
    parseZip (buildZip [("posts/导出/index.md", FileContent.text "héllo 世界"),
        ("empty.bin", FileContent.bytes []),
        ("img/raw.bin", FileContent.bytes [0, 1, 128, 255])]) =
      [("posts/导出/index.md", strToU8 "héllo 世界"),
       ("empty.bin", []),
       ("img/raw.bin", [0, 1, 128, 255])] := by
  constructor
  · intro pc hpc
    fin_cases hpc <;> exact ⟨by decide, by decide⟩
  · exact parseZip_buildZip _ (by
      intro pc hpc
      fin_cases hpc <;> exact ⟨by decide, by decide⟩)

/-! ## Archive readers (src/features/import-export/utils/zip.ts)

`readTextFile`, `readJsonFile` and `readValidatedJsonFile` are embedded
over the parsed mapping.  `JSON.parse` and the zod schema are external,
so they are abstracted as function parameters; the `Bool` component of
`readValidatedJsonFile` records whether the validation-failure log line
was emitted. -/

/-- `path in files` lookup over the parsed mapping. -/
def zipLookup (files : List (String × List Nat)) (path : String) :
    Option (List Nat) :=
  (files.find? (fun p => p.1 = path)).map (fun p => p.2)

/-- Embedding of `readTextFile`: `null` for a missing path, else the
decoded text. -/
def readTextFile (files : List (String × List Nat)) (path : String) :
    Option String :=
  (zipLookup files path).map strFromU8

/-- Embedding of `readJsonFile`: `if (!text) return null` swallows both
the missing path (`null`) and the empty string, then `JSON.parse` errors
yield `null`. -/
def readJsonFile {α : Type} (jsonParse : String → Option α)
    (files : List (String × List Nat)) (path : String) : Option α :=
  match readTextFile files path with
  | none => none
  | some t => if t = "" then none else jsonParse t

/-- Embedding of `readValidatedJsonFile`: as `readJsonFile`, but a
well-parsed value failing schema validation logs an error (the `Bool`)
and yields `null`. -/
def readValidatedJsonFile {α : Type} (jsonParse : String → Option JValue)
    (schemaParse : JValue → Option α) (files : List (String × List Nat))
    (path : String) : Option α × Bool :=
  match readTextFile files path with
  | none => (none, false)
  | some t =>
    if t = "" then (none, false)
    else
      match jsonParse t with
      | none => (none, false)
      | some j =>
        match schemaParse j with
        | none => (none, true)
        | some v => (some v, false)

/-! ## Claim C10 -/

/-- Claim C10: a present path with a zero-length payload reads as the
empty string through `readTextFile`, but `readJsonFile` and
`readValidatedJsonFile` both return null for it without logging a
validation error — exactly the result a missing path produces, so the
JSON-reading interface cannot distinguish an empty file from an absent
one. -/
theorem empty_file_reads_as_missing {α : Type}
    (jsonParse : String → Option JValue) (schemaParse : JValue → Option α)
    (jsonParseA : String → Option α)
    (files : List (String × List Nat)) (path missingPath : String)
    (hempty : zipLookup files path = some [])
    (hmissing : zipLookup files missingPath = none) :
    readTextFile files path = some "" ∧
    readJsonFile jsonParseA files path = none ∧
    readValidatedJsonFile jsonParse schemaParse files path = (none, false) ∧
    readJsonFile jsonParseA files missingPath = none ∧
    readValidatedJsonFile jsonParse schemaParse files missingPath = (none, false) := by
  have ht : readTextFile files path = some "" := by
    unfold readTextFile
    rw [hempty]
    rfl
  have hm : readTextFile files missingPath = none := by
    unfold readTextFile
    rw [hmissing]
    rfl
  refine ⟨ht, ?_, ?_, ?_, ?_⟩
  · unfold readJsonFile
    rw [ht]
    rfl
  · unfold readValidatedJsonFile
    rw [ht]
    rfl
  · unfold readJsonFile
    rw [hm]
  · unfold readValidatedJsonFile
    rw [hm]

/-- Claim C10, witness: a concrete archive holding one zero-length file,
probed at the empty file and at an absent path. -/
theorem empty_file_reads_as_missing_witness :
    zipLookup [("empty.json", [])] "empty.json" = some [] ∧
    zipLookup [("empty.json", [])] "missing.json" = none ∧
    (readTextFile [("empty.json", [])] "empty.json" = some "" ∧
      readJsonFile (fun _ => (none : Option JValue)) [("empty.json", [])] "empty.json" = none ∧
      readValidatedJsonFile (fun _ => (none : Option JValue))
        (fun _ => (none : Option JValue)) [("empty.json", [])] "empty.json" = (none, false) ∧
      readJsonFile (fun _ => (none : Option JValue)) [("empty.json", [])] "missing.json" = none ∧
      readValidatedJsonFile (fun _ => (none : Option JValue))
        (fun _ => (none : Option JValue)) [("empty.json", [])] "missing.json" = (none, false)) := by
  refine ⟨rfl, rfl, ?_⟩
  exact empty_file_reads_as_missing (fun _ => none) (fun _ => none) (fun _ => none)
    [("empty.json", [])] "empty.json" "missing.json" rfl rfl

/-! ## `parseFrontmatter`
(src/features/import-export/utils/frontmatter.ts)

`parseFrontmatter` delegates to the external `gray-matter` library, so
the splitter is modelled from the spec (§4.2: split a leading delimited
metadata block from the body; on an absent or malformed block return
empty metadata and the full text, never throwing); the YAML field parser
inside the block is abstracted as a parameter. -/

/-- Modelled from the spec: the `gray-matter` front-matter splitter.  A
block is a leading `---` line, the lines up to the next `---` line, and
that closing line; the body is everything after it.  No opening line, no
closing line, or an unparseable block all fall back to empty metadata
with the full text as body. -/
def parseFrontmatter (yamlParse : String → Option JRecord) (raw : String) :
    JRecord × String :=
  match jsSplit '\n' raw with
  | [] => ([], raw)
  | first :: rest =>
    if first = "---" then
      match rest.findIdx? (fun l => l = "---") with
      | none => ([], raw)
      | some j =>
        match yamlParse (jsJoin "\n" (rest.take j)) with
        | none => ([], raw)
        | some fields => (fields, jsJoin "\n" (rest.drop (j + 1)))
    else ([], raw)

/-! ## Claim C9 -/

/-- Claim C9: `parseFrontmatter` is total (it is a function, never
throwing), and on any input whose first line is not the `---` opening
delimiter, any input without a closing `---` line, and any input whose
block the YAML parser rejects, it returns empty metadata and the whole
input as body. -/
theorem parseFrontmatter_fallback (yamlParse : String → Option JRecord)
    (raw : String) :
    ((jsSplit '\n' raw).head? ≠ some "---" →
      parseFrontmatter yamlParse raw = ([], raw)) ∧
    (∀ rest, jsSplit '\n' raw = "---" :: rest →
      rest.findIdx? (fun l => l = "---") = none →
      parseFrontmatter yamlParse raw = ([], raw)) ∧
    (∀ rest j, jsSplit '\n' raw = "---" :: rest →
      rest.findIdx? (fun l => l = "---") = some j →
      yamlParse (jsJoin "\n" (rest.take j)) = none →
      parseFrontmatter yamlParse raw = ([], raw)) := by
  refine ⟨?_, ?_, ?_⟩
  · intro h
    unfold parseFrontmatter
    rcases hl : jsSplit '\n' raw with _ | ⟨first, rest⟩
    · rfl
    · have hne : ¬ first = "---" := by
        intro he
        exact h (by rw [hl, he]; rfl)
      simp [hne]
  · intro rest hl hf
    unfold parseFrontmatter
    rw [hl]
    simp [hf]
  · intro rest j hl hf hy
    unfold parseFrontmatter
    rw [hl]
    simp [hf, hy]

/-- Claim C9, witness: a plain markdown text without front matter passes
through unchanged, and a delimited block whose YAML the parser rejects
also falls back to the full text. -/
theorem parseFrontmatter_fallback_witness :
    (jsSplit '\n' "# Just markdown\n\nNo frontmatter here.").head? ≠ some "---" ∧
    parseFrontmatter (fun _ => none) "# Just markdown\n\nNo frontmatter here." =
      ([], "# Just markdown\n\nNo frontmatter here.") ∧
    jsSplit '\n' "---\n:bad yaml\n---\nbody" = "---" :: [":bad yaml", "---", "body"] ∧
    parseFrontmatter (fun _ => none) "---\n:bad yaml\n---\nbody" =
      ([], "---\n:bad yaml\n---\nbody") := by
  refine ⟨by decide, ?_, by decide, ?_⟩
  · exact (parseFrontmatter_fallback (fun _ => none) _).1 (by decide)
  · exact (parseFrontmatter_fallback (fun _ => none) _).2.2 [":bad yaml", "---", "body"] 1
      (by decide) (by decide) rfl

/-! ## Document tree → markdown converter
(src/features/import-export/utils/markdown-serializer.ts, the file whose
unnamed source part serializes TipTap `JSONContent` to markdown)

A `JSONContent` node carries a `type` discriminator and optional
`attrs`, `content`, `marks` and `text` fields, exactly as the TipTap
JSON shape does.  Numeric attributes (`level`, `start`) are modelled as
naturals. -/

/-- An inline mark: its type and the `href` attribute of link marks. -/
structure JMark where
  type : String
  href : Option String

/-- The node attributes the serializer reads. -/
structure NodeAttrs where
  level : Option Nat
  language : Option String
  src : Option String
  alt : Option String
  start : Option Nat

/-- A TipTap `JSONContent` node. -/
inductive JSONContent where
  | mk (type : String) (attrs : Option NodeAttrs)
      (content : Option (List JSONContent)) (marks : Option (List JMark))
      (text : Option String)

/-- The `type` field. -/
def JSONContent.type : JSONContent → String
  | .mk t _ _ _ _ => t

/-- The `attrs` field. -/
def JSONContent.attrs : JSONContent → Option NodeAttrs
  | .mk _ a _ _ _ => a

/-- The `content` field. -/
def JSONContent.content : JSONContent → Option (List JSONContent)
  | .mk _ _ c _ _ => c

/-- The `marks` field. -/
def JSONContent.marks : JSONContent → Option (List JMark)
  | .mk _ _ _ m _ => m

/-- The `text` field. -/
def JSONContent.text : JSONContent → Option String
  | .mk _ _ _ _ t => t

/-- `node.attrs?.src ?? ""`. -/
def attrSrc (n : JSONContent) : String :=
  match n.attrs with
  | some a => a.src.getD ""
  | none => ""

/-- `node.attrs?.alt ?? ""`. -/
def attrAlt (n : JSONContent) : String :=
  match n.attrs with
  | some a => a.alt.getD ""
  | none => ""

/-- `node.attrs?.level ?? 1`. -/
def attrLevel (n : JSONContent) : Nat :=
  match n.attrs with
  | some a => a.level.getD 1
  | none => 1

/-- `node.attrs?.language || ""`. -/
def attrLanguage (n : JSONContent) : String :=
  match n.attrs with
  | some a => a.language.getD ""
  | none => ""

/-- `Number(node.attrs?.start ?? 1)`. -/
def attrStart (n : JSONContent) : Nat :=
  match n.attrs with
  | some a => a.start.getD 1
  | none => 1

/-- JS `String.prototype.repeat`. -/
def strRepeat (s : String) (n : Nat) : String :=
  String.join (List.replicate n s)

/-- The image `src` after the optional rewriter. -/
def rewriteSrc (opts : Option (String → String)) (src : String) : String :=
  match opts with
  | some f => f src
  | none => src

/-- Embedding of `applyMark`: wraps text in the inline markdown form of
one mark; unknown marks pass the text through. -/
def applyMark (mark : JMark) (text : String) : String :=
  match mark.type with
  | "bold" => "**" ++ text ++ "**"
  | "italic" => "_" ++ text ++ "_"
  | "strike" => "~~" ++ text ++ "~~"
  | "code" => "`" ++ text ++ "`"
  | "underline" => "<u>" ++ text ++ "</u>"
  | "link" => "[" ++ text ++ "](" ++ mark.href.getD "" ++ ")"
  | _ => text

/-- Embedding of `serializeInlineNode`: text nodes fold their marks in
stored order over the text; inline images and hard breaks emit their
markdown; anything else serializes empty. -/
def serializeInlineNode (opts : Option (String → String)) (node : JSONContent) :
    String :=
  if node.type = "text" then
    (node.marks.getD []).foldl (fun t mk => applyMark mk t) (node.text.getD "")
  else if node.type = "image" then
    "![" ++ attrAlt node ++ "](" ++ rewriteSrc opts (attrSrc node) ++ ")"
  else if node.type = "hardBreak" then "  \n"
  else ""

/-- Embedding of `serializeInline`: joins the inline serializations of
an optional child list. -/
def serializeInline (opts : Option (String → String))
    (content : Option (List JSONContent)) : String :=
  match content with
  | none => ""
  | some l => String.join (l.map (serializeInlineNode opts))

/-- `cell.content?.[0]?.content`: the inline content of a table cell's
first paragraph. -/
def cellInline (cell : JSONContent) : Option (List JSONContent) :=
  match cell.content with
  | some (first :: _) => first.content
  | _ => none

/-- A serialized table row line. -/
def tableLine (cells : List String) : String :=
  "| " ++ jsJoin " | " cells ++ " |"

/-- Embedding of `serializeTable` over the table's row list: header row,
a `---` separator sized to the header's column count, then data rows. -/
def serializeTable (opts : Option (String → String))
    (rows : List JSONContent) : String :=
  match rows with
  | [] => ""
  | _ :: _ =>
    let serializedRows := rows.map (fun row =>
      (row.content.getD []).map (fun cell =>
        jsTrim (serializeInline opts (cellInline cell))))
    let colCount := (serializedRows.headD []).length
    if colCount = 0 then ""
    else
      jsJoin "\n" (tableLine (serializedRows.headD []) ::
        tableLine (List.replicate colCount "---") ::
        (serializedRows.tail.map tableLine))

mutual

/-- Embedding of `serializeNode`: block-level serialization of one node,
in the source's case order. -/
def serializeNode (opts : Option (String → String)) (listDepth : Nat) :
    JSONContent → String
  | .mk ty attrs content marks text =>
    if ty = "paragraph" then "\n" ++ serializeInline opts content ++ "\n"
    else if ty = "heading" then
      "\n" ++ strRepeat "#" (attrLevel (.mk ty attrs content marks text)) ++ " " ++
        serializeInline opts content ++ "\n"
    else if ty = "codeBlock" then
      "\n```" ++ attrLanguage (.mk ty attrs content marks text) ++ "\n" ++
        (match content with
          | some l => String.join (l.map (fun n => n.text.getD ""))
          | none => "") ++ "\n```\n"
    else if ty = "blockquote" then
      let inner :=
        match content with
        | some l => jsTrim (serializeNodes opts listDepth l)
        | none => jsTrim (serializeNodes opts listDepth [])
      "\n" ++ jsJoin "\n" ((jsSplit '\n' inner).map (fun line => "> " ++ line)) ++ "\n"
    else if ty = "bulletList" then
      "\n" ++
        (match content with
          | some l => serializeListItems opts listDepth (fun _ => "-") 0 l
          | none => serializeListItems opts listDepth (fun _ => "-") 0 [])
    else if ty = "orderedList" then
      "\n" ++
        (match content with
          | some l =>
            serializeListItems opts listDepth
              (fun i => toString (attrStart (.mk ty attrs content marks text) + i) ++ ".") 0 l
          | none =>
            serializeListItems opts listDepth
              (fun i => toString (attrStart (.mk ty attrs content marks text) + i) ++ ".") 0 [])
    else if ty = "image" then
      "\n![" ++ attrAlt (.mk ty attrs content marks text) ++ "](" ++
        rewriteSrc opts (attrSrc (.mk ty attrs content marks text)) ++ ")\n"
    else if ty = "table" then
      "\n" ++ serializeTable opts (content.getD []) ++ "\n"
    else if ty = "horizontalRule" then "\n---\n"
    else if ty = "hardBreak" then "\n"
    else
      match content with
      | some l => serializeNodes opts listDepth l
      | none => serializeInline opts none
termination_by n => sizeOf n

/-- `content.map(node => serializeNode(node, options)).join("")`. -/
def serializeNodes (opts : Option (String → String)) (listDepth : Nat) :
    List JSONContent → String
  | [] => ""
  | n :: rest => serializeNode opts listDepth n ++ serializeNodes opts listDepth rest
termination_by l => sizeOf l

/-- Embedding of `serializeListItem`: the first part is the item line
after the marker, the remaining parts (nested lists) are appended. -/
def serializeListItem (opts : Option (String → String)) (marker : String)
    (depth : Nat) : JSONContent → String
  | .mk _ _ content _ _ =>
    let parts :=
      match content with
      | some l => serializeListItemParts opts depth l
      | none => serializeListItemParts opts depth []
    strRepeat "  " depth ++ marker ++ " " ++ jsTrim (parts.headD "") ++ "\n" ++
      String.join parts.tail
termination_by item => sizeOf item

/-- The `parts` array of `serializeListItem`: paragraphs serialize
inline, nested lists recurse one level deeper, anything else serializes
as a block at the current depth. -/
def serializeListItemParts (opts : Option (String → String)) (depth : Nat) :
    List JSONContent → List String
  | [] => []
  | child :: rest =>
    (match child with
      | .mk cty cattrs ccontent cmarks ctext =>
        if cty = "paragraph" then serializeInline opts ccontent
        else if cty = "bulletList" then
          match ccontent with
          | some l => serializeListItems opts (depth + 1) (fun _ => "-") 0 l
          | none => serializeListItems opts (depth + 1) (fun _ => "-") 0 []
        else if cty = "orderedList" then
          match ccontent with
          | some l =>
            serializeListItems opts (depth + 1)
              (fun i =>
                toString (attrStart (.mk cty cattrs ccontent cmarks ctext) + i) ++ ".") 0 l
          | none =>
            serializeListItems opts (depth + 1)
              (fun i =>
                toString (attrStart (.mk cty cattrs ccontent cmarks ctext) + i) ++ ".") 0 []
        else serializeNode opts depth (.mk cty cattrs ccontent cmarks ctext)) ::
      serializeListItemParts opts depth rest
termination_by l => sizeOf l

/-- Serializes the items of a list node, numbering markers from the
start index. -/
def serializeListItems (opts : Option (String → String)) (depth : Nat)
    (mkMarker : Nat → String) (i : Nat) : List JSONContent → String
  | [] => ""
  | item :: rest =>
    serializeListItem opts (mkMarker i) depth item ++
      serializeListItems opts depth mkMarker (i + 1) rest
termination_by l => sizeOf l

end

/-- `lines.replace(/^\n+/, "")`: strip the leading newline run. -/
def dropLeadingNewlines (s : String) : String :=
  (s.data.dropWhile (fun c => c = '\n')).asString

/-- `lines.replace(/\n{3,}/g, "\n\n")` over the character list: any run
of three or more newlines collapses to two. -/
def collapseNL : List Char → List Char
  | [] => []
  | [a] => [a]
  | [a, b] => [a, b]
  | a :: b :: c :: rest =>
    if a = '\n' ∧ b = '\n' ∧ c = '\n' then collapseNL (b :: c :: rest)
    else a :: collapseNL (b :: c :: rest)

/-- The newline-run collapse, on strings. -/
def collapseNewlines (s : String) : String :=
  (collapseNL s.data).asString

/-- The final cleanup of `jsonContentToMarkdown`: strip leading
newlines, collapse newline runs, trim the end, append one newline. -/
def cleanupMarkdown (s : String) : String :=
  jsTrimEnd (collapseNewlines (dropLeadingNewlines s)) ++ "\n"

/-- Embedding of `jsonContentToMarkdown`: a non-`doc` node or a `doc`
without a content field serializes empty; otherwise the children are
serialized and cleaned up. -/
def jsonContentToMarkdown (doc : JSONContent)
    (opts : Option (String → String)) : String :=
  match doc with
  | .mk ty _ content _ _ =>
    if ty = "doc" then
      match content with
      | none => ""
      | some l => cleanupMarkdown (serializeNodes opts 0 l)
    else ""

/-! ## Claim C7: converter fidelity -/

/-- A plain text node. -/
def textNode (s : String) : JSONContent :=
  .mk "text" none none none (some s)

/-- A text node carrying exactly a bold mark. -/
def boldTextNode (s : String) : JSONContent :=
  .mk "text" none none (some [⟨"bold", none⟩]) (some s)

/-- A paragraph node. -/
def paragraphNode (children : List JSONContent) : JSONContent :=
  .mk "paragraph" none (some children) none none

/-- A heading node of the given level. -/
def headingNode (level : Nat) (children : List JSONContent) : JSONContent :=
  .mk "heading" (some ⟨some level, none, none, none, none⟩) (some children) none none

/-- A header cell holding one paragraph of plain text. -/
def tableHeaderNode (s : String) : JSONContent :=
  .mk "tableHeader" none (some [paragraphNode [textNode s]]) none none

/-- A data cell holding one paragraph of plain text. -/
def tableCellNode (s : String) : JSONContent :=
  .mk "tableCell" none (some [paragraphNode [textNode s]]) none none

/-- A table row. -/
def tableRowNode (cells : List JSONContent) : JSONContent :=
  .mk "tableRow" none (some cells) none none

/-- A table node. -/
def tableNode (rows : List JSONContent) : JSONContent :=
  .mk "table" none (some rows) none none

/-- A document node. -/
def docNode (children : List JSONContent) : JSONContent :=
  .mk "doc" none (some children) none none

/-- The claim's document family: one level-2 heading, one paragraph with
a bold-marked text node, and one table with a header row of `hdr` cells
followed by the data rows. -/
def mkC7doc (h t : String) (hdr : List String) (rows : List (List String)) :
    JSONContent :=
  docNode
    [headingNode 2 [textNode h],
     paragraphNode [boldTextNode t],
     tableNode (tableRowNode (hdr.map tableHeaderNode) ::
       rows.map (fun r => tableRowNode (r.map tableCellNode)))]

/-- Mapping a pointwise-identity function over a list is the identity. -/
theorem list_map_eq_self {α : Type} (l : List α) (f : α → α)
    (h : ∀ x ∈ l, f x = x) : l.map f = l := by
  induction l with
  | nil => rfl
  | cons a l ih =>
    simp [h a (by simp), ih (fun x hx => h x (List.mem_cons_of_mem _ hx))]

/-- One header cell serializes to its trimmed text. -/
theorem serializeCell_header (opts : Option (String → String)) (s : String) :
    jsTrim (serializeInline opts (cellInline (tableHeaderNode s))) = jsTrim s := by
  have hj : String.join [s] = s := by
    show "" ++ s = s
    simp
  show jsTrim (String.join [s]) = jsTrim s
  rw [hj]

/-- One data cell serializes to its trimmed text. -/
theorem serializeCell_data (opts : Option (String → String)) (s : String) :
    jsTrim (serializeInline opts (cellInline (tableCellNode s))) = jsTrim s := by
  have hj : String.join [s] = s := by
    show "" ++ s = s
    simp
  show jsTrim (String.join [s]) = jsTrim s
  rw [hj]

/-- A header row's cells serialize back to the given trim-stable texts. -/
theorem rowCells_header (opts : Option (String → String)) (cells : List String)
    (hc : ∀ s ∈ cells, jsTrim s = s) :
    (cells.map tableHeaderNode).map
      (fun cell => jsTrim (serializeInline opts (cellInline cell))) = cells := by
  rw [List.map_map]
  refine list_map_eq_self cells _ ?_
  intro s hs
  show jsTrim (serializeInline opts (cellInline (tableHeaderNode s))) = s
  rw [serializeCell_header, hc s hs]

/-- A data row's cells serialize back to the given trim-stable texts. -/
theorem rowCells_data (opts : Option (String → String)) (cells : List String)
    (hc : ∀ s ∈ cells, jsTrim s = s) :
    (cells.map tableCellNode).map
      (fun cell => jsTrim (serializeInline opts (cellInline cell))) = cells := by
  rw [List.map_map]
  refine list_map_eq_self cells _ ?_
  intro s hs
  show jsTrim (serializeInline opts (cellInline (tableCellNode s))) = s
  rw [serializeCell_data, hc s hs]

/-- The table of the claim's family serializes to header line, `---`
separator sized to the header, then data lines. -/
theorem serializeTable_eval (opts : Option (String → String))
    (hdr : List String) (rows : List (List String)) (hhdr : hdr ≠ [])
    (hcells : ∀ s ∈ hdr, jsTrim s = s)
    (hrows : ∀ r ∈ rows, ∀ s ∈ r, jsTrim s = s) :
    serializeTable opts (tableRowNode (hdr.map tableHeaderNode) ::
        rows.map (fun r => tableRowNode (r.map tableCellNode))) =
      jsJoin "\n" (tableLine hdr :: tableLine (List.replicate hdr.length "---") ::
        rows.map tableLine) := by
  unfold serializeTable
  simp only
  have hrow0 : (tableRowNode (hdr.map tableHeaderNode)).content.getD [] =
      hdr.map tableHeaderNode := rfl
  have hmap : ((tableRowNode (hdr.map tableHeaderNode) ::
      rows.map (fun r => tableRowNode (r.map tableCellNode))).map (fun row =>
        (row.content.getD []).map (fun cell =>
          jsTrim (serializeInline opts (cellInline cell))))) =
      hdr :: rows := by
    rw [List.map_cons]
    congr 1
    · rw [hrow0]
      exact rowCells_header opts hdr hcells
    · rw [List.map_map]
      refine list_map_eq_self rows _ ?_
      intro r hr
      show ((tableRowNode (r.map tableCellNode)).content.getD []).map
        (fun cell => jsTrim (serializeInline opts (cellInline cell))) = r
      rw [show (tableRowNode (r.map tableCellNode)).content.getD [] =
        r.map tableCellNode from rfl]
      exact rowCells_data opts r (hrows r hr)
  rw [hmap]
  have hlen0 : ¬ hdr.length = 0 := by
    intro h0
    exact hhdr (List.length_eq_zero.mp h0)
  simp only [List.headD_cons, List.tail_cons, if_neg hlen0]

/-- Two strings with equal character lists are equal. -/
theorem str_eq_of_data {s t : String} (h : s.data = t.data) : s = t := by
  cases s
  cases t
  exact congrArg String.mk h

/-- Collapsing starts after a non-newline head. -/
theorem collapseNL_cons_ne (a : Char) (l : List Char) (ha : ¬ a = '\n') :
    collapseNL (a :: l) = a :: collapseNL l := by
  cases l with
  | nil => rfl
  | cons b l2 =>
    cases l2 with
    | nil => rfl
    | cons c rest => simp [collapseNL, ha]

/-- Collapsing skips over a newline-free prefix. -/
theorem collapseNL_nlfree_append (u v : List Char) (hu : ∀ c ∈ u, ¬ c = '\n') :
    collapseNL (u ++ v) = u ++ collapseNL v := by
  induction u with
  | nil => simp
  | cons a u ih =>
    rw [List.cons_append, collapseNL_cons_ne a _ (hu a (by simp)),
      ih (fun c hc => hu c (List.mem_cons_of_mem _ hc))]
    rfl

/-- One newline before a non-newline character is preserved. -/
theorem collapseNL_nl_cons (c : Char) (l : List Char) (hc : ¬ c = '\n') :
    collapseNL ('\n' :: c :: l) = '\n' :: collapseNL (c :: l) := by
  cases l with
  | nil => rfl
  | cons d rest => simp [collapseNL, hc]

/-- A double newline before a non-newline character is preserved. -/
theorem collapseNL_nl2_cons (c : Char) (l : List Char) (hc : ¬ c = '\n') :
    collapseNL ('\n' :: '\n' :: c :: l) = '\n' :: '\n' :: collapseNL (c :: l) := by
  rw [show collapseNL ('\n' :: '\n' :: c :: l) =
    '\n' :: collapseNL ('\n' :: c :: l) from by simp [collapseNL, hc]]
  rw [collapseNL_nl_cons c l hc]

/-- Joining character-list lines with single newlines. -/
def joinNL : List Char → List (List Char) → List Char
  | l0, [] => l0
  | l0, l1 :: rest => l0 ++ '\n' :: joinNL l1 rest

/-- `jsJoin "\n"` at the character-list level. -/
theorem jsJoin_data (a : String) (t : List String) :
    (jsJoin "\n" (a :: t)).data = joinNL a.data (t.map String.data) := by
  induction t generalizing a with
  | nil => rfl
  | cons b t ih =>
    show (a ++ "\n" ++ jsJoin "\n" (b :: t)).data = _
    rw [String.data_append, String.data_append, ih b]
    simp [joinNL]

/-- A line join starts with its first line. -/
theorem joinNL_head (l0 : List Char) (ls : List (List Char)) :
    ∃ r, joinNL l0 ls = l0 ++ r := by
  cases ls with
  | nil => exact ⟨[], by simp [joinNL]⟩
  | cons l1 rest => exact ⟨'\n' :: joinNL l1 rest, rfl⟩

/-- Collapsing a newline-joined list of `|`-headed newline-free lines
followed by one final newline changes nothing. -/
theorem collapseNL_pipes : ∀ (ls : List (List Char)) (l0 : List Char),
    (∃ tl, l0 = '|' :: tl) → (∀ c ∈ l0, ¬ c = '\n') →
    (∀ l ∈ ls, (∃ tl, l = '|' :: tl) ∧ ∀ c ∈ l, ¬ c = '\n') →
    collapseNL (joinNL l0 ls ++ ['\n']) = joinNL l0 ls ++ ['\n'] := by
  intro ls
  induction ls with
  | nil =>
    intro l0 _ h0f _
    show collapseNL (l0 ++ ['\n']) = l0 ++ ['\n']
    rw [collapseNL_nlfree_append l0 ['\n'] h0f]
    rfl
  | cons l1 rest ih =>
    intro l0 h0 h0f hls
    show collapseNL ((l0 ++ '\n' :: joinNL l1 rest) ++ ['\n']) = _
    rw [List.append_assoc, collapseNL_nlfree_append l0 _ h0f]
    obtain ⟨r, hr⟩ := joinNL_head l1 rest
    obtain ⟨tl1, htl1⟩ := (hls l1 (by simp)).1
    have hJ : joinNL l1 rest = '|' :: (tl1 ++ r) := by
      rw [hr, htl1]
      rfl
    show l0 ++ collapseNL ('\n' :: (joinNL l1 rest ++ ['\n'])) =
      (l0 ++ '\n' :: joinNL l1 rest) ++ ['\n']
    rw [show ('\n' :: (joinNL l1 rest ++ ['\n'])) =
      '\n' :: ('|' :: ((tl1 ++ r) ++ ['\n'])) from by rw [hJ]; rfl]
    rw [collapseNL_nl_cons '|' _ (by decide)]
    rw [show ('|' :: ((tl1 ++ r) ++ ['\n'])) = joinNL l1 rest ++ ['\n'] from by
      rw [hJ]; rfl]
    rw [ih l1 (hls l1 (by simp)).1 (hls l1 (by simp)).2
      (fun l hl => hls l (List.mem_cons_of_mem _ hl))]
    simp

/-- Trimming the end of a string that ends in `|` then one newline
removes exactly that newline (character-list form). -/
theorem trimEnd_data_pipe_nl (x : List Char) (y : List Char)
    (hx : x = y ++ ['|']) :
    ((x ++ ['\n']).reverse.dropWhile jsIsWs).reverse = x := by
  subst hx
  rw [List.append_assoc]
  rw [List.reverse_append]
  rw [show ((['|'] ++ ['\n'] : List Char)).reverse = ['\n', '|'] from rfl]
  rw [List.cons_append, List.cons_append]
  rw [show List.dropWhile jsIsWs ('\n' :: '|' :: ([] ++ y.reverse)) =
    '|' :: ([] ++ y.reverse) from by simp [List.dropWhile, jsIsWs]]
  simp

/-- The character list of a table line: `|`, space, the joined cells,
space, `|`. -/
theorem tableLine_data (cells : List String) :
    (tableLine cells).data =
      '|' :: ' ' :: ((jsJoin " | " cells).data ++ [' ', '|']) := by
  simp [tableLine, String.data_append]

/-- A table line ends in `|`. -/
theorem tableLine_ends (cells : List String) :
    ∃ y, (tableLine cells).data = y ++ ['|'] := by
  refine ⟨'|' :: ' ' :: ((jsJoin " | " cells).data ++ [' ']), ?_⟩
  rw [tableLine_data]
  simp

/-- Joining newline-free strings with a newline-free separator is
newline-free. -/
theorem jsJoin_nlfree (sep : String) (hsep : ∀ ch ∈ sep.data, ¬ ch = '\n') :
    ∀ (cells : List String), (∀ s ∈ cells, ∀ ch ∈ s.data, ¬ ch = '\n') →
    ∀ ch ∈ (jsJoin sep cells).data, ¬ ch = '\n' := by
  intro cells
  induction cells with
  | nil =>
    intro _ ch hch
    cases hch
  | cons a rest ih =>
    intro hc ch hch
    cases rest with
    | nil => exact hc a (by simp) ch hch
    | cons b t =>
      rw [show jsJoin sep (a :: b :: t) = a ++ sep ++ jsJoin sep (b :: t) from rfl,
        String.data_append, String.data_append] at hch
      rcases List.mem_append.mp hch with hch2 | hch2
      · rcases List.mem_append.mp hch2 with hch3 | hch3
        · exact hc a (by simp) ch hch3
        · exact hsep ch hch3
      · exact ih (fun s hs => hc s (List.mem_cons_of_mem _ hs)) ch hch2

/-- A table line is newline-free when its cells are. -/
theorem tableLine_nlfree (cells : List String)
    (hc : ∀ s ∈ cells, ∀ ch ∈ s.data, ¬ ch = '\n') :
    ∀ ch ∈ (tableLine cells).data, ¬ ch = '\n' := by
  intro ch hch
  rw [tableLine_data] at hch
  rcases hch with _ | ⟨_, hch⟩
  · decide
  rcases hch with _ | ⟨_, hch⟩
  · decide
  rcases List.mem_append.mp hch with hch2 | hch2
  · exact jsJoin_nlfree " | " (by decide) cells hc ch hch2
  · rcases hch2 with _ | ⟨_, hch3⟩
    · decide
    rcases hch3 with _ | ⟨_, hch4⟩
    · decide
    cases hch4

/-- A newline join of lines all ending in `|` ends in `|`. -/
theorem joinNL_ends : ∀ (ls : List (List Char)) (l0 : List Char),
    (∃ y, l0 = y ++ ['|']) → (∀ l ∈ ls, ∃ y, l = y ++ ['|']) →
    ∃ y, joinNL l0 ls = y ++ ['|'] := by
  intro ls
  induction ls with
  | nil =>
    intro l0 h0 _
    exact h0
  | cons l1 rest ih =>
    intro l0 _ hls
    obtain ⟨y, hy⟩ := ih l1 (hls l1 (by simp))
      (fun l hl => hls l (List.mem_cons_of_mem _ hl))
    refine ⟨l0 ++ '\n' :: y, ?_⟩
    show l0 ++ '\n' :: joinNL l1 rest = _
    rw [hy]
    simp

/-- Evaluation of the claim-family document body: heading, bold
paragraph, table. -/
theorem serializeNodes_C7 (opts : Option (String → String)) (h t : String)
    (R : List JSONContent) :
    serializeNodes opts 0
        [headingNode 2 [textNode h], paragraphNode [boldTextNode t], tableNode R] =
      ("\n" ++ "##" ++ " " ++ h ++ "\n") ++
        (("\n" ++ ("**" ++ t ++ "**") ++ "\n") ++
          (("\n" ++ serializeTable opts R ++ "\n") ++ "")) := by
  simp only [serializeNodes, serializeNode, headingNode, paragraphNode, tableNode,
    textNode, boldTextNode]
  rfl

/-- Cleanup of a heading block, a bold paragraph block and a table block:
the leading newline is stripped, the double newlines between blocks
survive, and the trailing newline is trimmed and re-appended. -/
theorem cleanup_three_blocks (h t T : String)
    (hh : ∀ c ∈ h.data, ¬ c = '\n') (ht : ∀ c ∈ t.data, ¬ c = '\n')
    (hThead : ∃ tl, T.data = '|' :: tl)
    (hTnl : collapseNL (T.data ++ ['\n']) = T.data ++ ['\n'])
    (hTend : ∃ y, T.data = y ++ ['|']) :
    cleanupMarkdown (("\n" ++ "##" ++ " " ++ h ++ "\n") ++
        (("\n" ++ ("**" ++ t ++ "**") ++ "\n") ++ (("\n" ++ T ++ "\n") ++ ""))) =
      "## " ++ h ++ "\n\n**" ++ t ++ "**\n\n" ++ T ++ "\n" := by
  obtain ⟨tl, htl⟩ := hThead
  obtain ⟨y, hy⟩ := hTend
  have hu1 : ∀ c ∈ (['#', '#', ' '] ++ h.data : List Char), ¬ c = '\n' := by
    intro c hc
    rcases List.mem_append.mp hc with hc2 | hc2
    · rcases hc2 with _ | ⟨_, hc3⟩
      · decide
      rcases hc3 with _ | ⟨_, hc4⟩
      · decide
      rcases hc4 with _ | ⟨_, hc5⟩
      · decide
      cases hc5
    · exact hh c hc2
  have hu2 : ∀ c ∈ ((['*', '*'] ++ t.data) ++ ['*', '*'] : List Char), ¬ c = '\n' := by
    intro c hc
    rcases List.mem_append.mp hc with hc2 | hc2
    · rcases List.mem_append.mp hc2 with hc3 | hc3
      · rcases hc3 with _ | ⟨_, hc4⟩
        · decide
        rcases hc4 with _ | ⟨_, hc5⟩
        · decide
        cases hc5
      · exact ht c hc3
    · rcases hc2 with _ | ⟨_, hc4⟩
      · decide
      rcases hc4 with _ | ⟨_, hc5⟩
      · decide
      cases hc5
  have h1 : (dropLeadingNewlines (("\n" ++ "##" ++ " " ++ h ++ "\n") ++
      (("\n" ++ ("**" ++ t ++ "**") ++ "\n") ++ (("\n" ++ T ++ "\n") ++ "")))).data =
      (['#', '#', ' '] ++ h.data) ++
        ('\n' :: '\n' :: (((['*', '*'] ++ t.data) ++ ['*', '*']) ++
          ('\n' :: '\n' :: (T.data ++ ['\n'])))) := by
    show List.dropWhile (fun c => c = '\n') ((("\n" ++ "##" ++ " " ++ h ++ "\n") ++
      (("\n" ++ ("**" ++ t ++ "**") ++ "\n") ++ (("\n" ++ T ++ "\n") ++ "")))).data = _
    have hSdata : ((("\n" ++ "##" ++ " " ++ h ++ "\n") ++
        (("\n" ++ ("**" ++ t ++ "**") ++ "\n") ++ (("\n" ++ T ++ "\n") ++ "")))).data =
        '\n' :: ((['#', '#', ' '] ++ h.data) ++
          ('\n' :: '\n' :: (((['*', '*'] ++ t.data) ++ ['*', '*']) ++
            ('\n' :: '\n' :: (T.data ++ ['\n']))))) := by
      simp [String.data_append]
    rw [hSdata]
    rw [show ('\n' :: ((['#', '#', ' '] ++ h.data) ++
        ('\n' :: '\n' :: (((['*', '*'] ++ t.data) ++ ['*', '*']) ++
          ('\n' :: '\n' :: (T.data ++ ['\n']))))) : List Char) =
      '\n' :: '#' :: ('#' :: ' ' :: (h.data ++
        ('\n' :: '\n' :: (((['*', '*'] ++ t.data) ++ ['*', '*']) ++
          ('\n' :: '\n' :: (T.data ++ ['\n'])))))) from rfl]
    rw [show List.dropWhile (fun c => c = '\n')
        ('\n' :: '#' :: ('#' :: ' ' :: (h.data ++
          ('\n' :: '\n' :: (((['*', '*'] ++ t.data) ++ ['*', '*']) ++
            ('\n' :: '\n' :: (T.data ++ ['\n'])))))))  =
      '#' :: ('#' :: ' ' :: (h.data ++
        ('\n' :: '\n' :: (((['*', '*'] ++ t.data) ++ ['*', '*']) ++
          ('\n' :: '\n' :: (T.data ++ ['\n'])))))) from by
      simp [List.dropWhile]]
    rfl
  have h2 : (collapseNewlines (dropLeadingNewlines (("\n" ++ "##" ++ " " ++ h ++ "\n") ++
      (("\n" ++ ("**" ++ t ++ "**") ++ "\n") ++ (("\n" ++ T ++ "\n") ++ ""))))).data =
      (['#', '#', ' '] ++ h.data) ++
        ('\n' :: '\n' :: (((['*', '*'] ++ t.data) ++ ['*', '*']) ++
          ('\n' :: '\n' :: (T.data ++ ['\n'])))) := by
    show collapseNL ((dropLeadingNewlines (("\n" ++ "##" ++ " " ++ h ++ "\n") ++
      (("\n" ++ ("**" ++ t ++ "**") ++ "\n") ++ (("\n" ++ T ++ "\n") ++ "")))).data) = _
    rw [h1]
    rw [collapseNL_nlfree_append _ _ hu1]
    rw [show ('\n' :: '\n' :: (((['*', '*'] ++ t.data) ++ ['*', '*']) ++
        ('\n' :: '\n' :: (T.data ++ ['\n']))) : List Char) =
      '\n' :: '\n' :: '*' :: ('*' :: ((t.data ++ ['*', '*']) ++
        ('\n' :: '\n' :: (T.data ++ ['\n'])))) from rfl]
    rw [collapseNL_nl2_cons '*' _ (by decide)]
    rw [show ('*' :: ('*' :: ((t.data ++ ['*', '*']) ++
        ('\n' :: '\n' :: (T.data ++ ['\n'])))) : List Char) =
      ((['*', '*'] ++ t.data) ++ ['*', '*']) ++
        ('\n' :: '\n' :: (T.data ++ ['\n'])) from by simp]
    rw [collapseNL_nlfree_append _ _ hu2]
    rw [show ('\n' :: '\n' :: (T.data ++ ['\n']) : List Char) =
      '\n' :: '\n' :: '|' :: (tl ++ ['\n']) from by rw [htl]; rfl]
    rw [collapseNL_nl2_cons '|' _ (by decide)]
    rw [show ('|' :: (tl ++ ['\n']) : List Char) = T.data ++ ['\n'] from by rw [htl]; rfl]
    rw [hTnl]
  have hx : (['#', '#', ' '] ++ h.data) ++
      ('\n' :: '\n' :: (((['*', '*'] ++ t.data) ++ ['*', '*']) ++
        ('\n' :: '\n' :: (T.data ++ ['\n'])))) =
      ((['#', '#', ' '] ++ h.data) ++
        ('\n' :: '\n' :: (((['*', '*'] ++ t.data) ++ ['*', '*']) ++
          ('\n' :: '\n' :: T.data)))) ++ ['\n'] := by
    simp
  have hxp : (['#', '#', ' '] ++ h.data) ++
      ('\n' :: '\n' :: (((['*', '*'] ++ t.data) ++ ['*', '*']) ++
        ('\n' :: '\n' :: T.data))) =
      ((['#', '#', ' '] ++ h.data) ++
        ('\n' :: '\n' :: (((['*', '*'] ++ t.data) ++ ['*', '*']) ++
          ('\n' :: '\n' :: y)))) ++ ['|'] := by
    rw [hy]
    simp
  have h3 : (jsTrimEnd (collapseNewlines (dropLeadingNewlines
      (("\n" ++ "##" ++ " " ++ h ++ "\n") ++
        (("\n" ++ ("**" ++ t ++ "**") ++ "\n") ++ (("\n" ++ T ++ "\n") ++ "")))))).data =
      (['#', '#', ' '] ++ h.data) ++
        ('\n' :: '\n' :: (((['*', '*'] ++ t.data) ++ ['*', '*']) ++
          ('\n' :: '\n' :: T.data))) := by
    show ((collapseNewlines (dropLeadingNewlines (("\n" ++ "##" ++ " " ++ h ++ "\n") ++
      (("\n" ++ ("**" ++ t ++ "**") ++ "\n") ++
        (("\n" ++ T ++ "\n") ++ ""))))).data.reverse.dropWhile jsIsWs).reverse = _
    rw [h2, hx]
    exact trimEnd_data_pipe_nl _ _ hxp
  apply str_eq_of_data
  show ((jsTrimEnd (collapseNewlines (dropLeadingNewlines
      (("\n" ++ "##" ++ " " ++ h ++ "\n") ++
        (("\n" ++ ("**" ++ t ++ "**") ++ "\n") ++ (("\n" ++ T ++ "\n") ++ "")))))) ++
      "\n").data = _
  rw [String.data_append, h3]
  simp [String.data_append]

/-- Claim C7: converter fidelity.  For every document containing a
level-2 heading, a paragraph with a bold-marked text node, and a table
whose header row has `hdr.length` cells (texts newline-free, cell texts
trim-stable), the produced markdown is exactly the `##`-prefixed heading
text, the bold text wrapped as `**text**`, and the table: header line,
then a `---` separator line with exactly the header's column count,
then the data lines. -/
theorem converter_fidelity (h t : String) (hdr : List String)
    (rows : List (List String))
    (hh : ∀ c ∈ h.data, ¬ c = '\n') (ht2 : ∀ c ∈ t.data, ¬ c = '\n')
    (hhdr : hdr ≠ [])
    (hcells : ∀ s ∈ hdr, jsTrim s = s ∧ ∀ c ∈ s.data, ¬ c = '\n')
    (hrows : ∀ r ∈ rows, ∀ s ∈ r, jsTrim s = s ∧ ∀ c ∈ s.data, ¬ c = '\n') :
    jsonContentToMarkdown (mkC7doc h t hdr rows) none =
      "## " ++ h ++ "\n\n**" ++ t ++ "**\n\n" ++
        jsJoin "\n" (tableLine hdr :: tableLine (List.replicate hdr.length "---") ::
          rows.map tableLine) ++ "\n" := by
  have hST := serializeTable_eval none hdr rows hhdr (fun s hs => (hcells s hs).1)
    (fun r hr s hs => (hrows r hr s hs).1)
  have hlines : ∀ l ∈ (tableLine hdr :: tableLine (List.replicate hdr.length "---") ::
      rows.map tableLine),
      (∃ tl, l.data = '|' :: tl) ∧ (∀ c ∈ l.data, ¬ c = '\n') ∧
        (∃ y, l.data = y ++ ['|']) := by
    intro l hl
    have hform : ∃ cells, l = tableLine cells ∧
        (∀ s ∈ cells, ∀ c ∈ s.data, ¬ c = '\n') := by
      rcases hl with _ | ⟨_, hl2⟩
      · exact ⟨hdr, rfl, fun s hs => (hcells s hs).2⟩
      rcases hl2 with _ | ⟨_, hl3⟩
      · refine ⟨List.replicate hdr.length "---", rfl, ?_⟩
        intro s hs
        rw [List.eq_of_mem_replicate hs]
        intro c hc
        rcases hc with _ | ⟨_, hc2⟩
        · decide
        rcases hc2 with _ | ⟨_, hc3⟩
        · decide
        rcases hc3 with _ | ⟨_, hc4⟩
        · decide
        cases hc4
      · obtain ⟨r, hr, rfl⟩ := List.mem_map.mp hl3
        exact ⟨r, rfl, fun s hs => (hrows r hr s hs).2⟩
    obtain ⟨cells, rfl, hnl⟩ := hform
    refine ⟨⟨' ' :: ((jsJoin " | " cells).data ++ [' ', '|']), ?_⟩,
      tableLine_nlfree cells hnl, tableLine_ends cells⟩
    rw [tableLine_data]
  have hTdata : (jsJoin "\n" (tableLine hdr ::
      tableLine (List.replicate hdr.length "---") :: rows.map tableLine)).data =
      joinNL (tableLine hdr).data
        ((tableLine (List.replicate hdr.length "---") :: rows.map tableLine).map
          String.data) :=
    jsJoin_data _ _
  have hThead : ∃ tl, (jsJoin "\n" (tableLine hdr ::
      tableLine (List.replicate hdr.length "---") :: rows.map tableLine)).data =
      '|' :: tl := by
    obtain ⟨r, hr⟩ := joinNL_head (tableLine hdr).data
      ((tableLine (List.replicate hdr.length "---") :: rows.map tableLine).map
        String.data)
    obtain ⟨tl0, htl0⟩ := (hlines (tableLine hdr) (by simp)).1
    refine ⟨tl0 ++ r, ?_⟩
    rw [hTdata, hr, htl0]
    rfl
  have hTnl : collapseNL ((jsJoin "\n" (tableLine hdr ::
      tableLine (List.replicate hdr.length "---") :: rows.map tableLine)).data ++
      ['\n']) =
      (jsJoin "\n" (tableLine hdr ::
        tableLine (List.replicate hdr.length "---") :: rows.map tableLine)).data ++
      ['\n'] := by
    rw [hTdata]
    refine collapseNL_pipes _ _ (hlines (tableLine hdr) (by simp)).1
      (hlines (tableLine hdr) (by simp)).2.1 ?_
    intro l hl
    obtain ⟨l2, hl2, rfl⟩ := List.mem_map.mp hl
    exact ⟨(hlines l2 (List.mem_cons_of_mem _ hl2)).1,
      (hlines l2 (List.mem_cons_of_mem _ hl2)).2.1⟩
  have hTend : ∃ y, (jsJoin "\n" (tableLine hdr ::
      tableLine (List.replicate hdr.length "---") :: rows.map tableLine)).data =
      y ++ ['|'] := by
    rw [hTdata]
    refine joinNL_ends _ _ (hlines (tableLine hdr) (by simp)).2.2 ?_
    intro l hl
    obtain ⟨l2, hl2, rfl⟩ := List.mem_map.mp hl
    exact (hlines l2 (List.mem_cons_of_mem _ hl2)).2.2
  show cleanupMarkdown (serializeNodes none 0
      [headingNode 2 [textNode h], paragraphNode [boldTextNode t],
        tableNode (tableRowNode (hdr.map tableHeaderNode) ::
          rows.map (fun r => tableRowNode (r.map tableCellNode)))]) = _
  rw [serializeNodes_C7]
  rw [hST]
  exact cleanup_three_blocks h t _ hh ht2 hThead hTnl hTend

/-- Claim C7, witness: a concrete document with heading "Title", bold
"bold", a two-column header and one data row; the separator row carries
exactly two `---` columns. -/
theorem converter_fidelity_witness :
    (∀ c ∈ "Title".data, ¬ c = '\n') ∧ ["Name", "Age"] ≠ ([] : List String) ∧
    jsonContentToMarkdown (mkC7doc "Title" "bold" ["Name", "Age"] [["Alice", "30"]]) none =
      "## " ++ "Title" ++ "\n\n**" ++ "bold" ++ "**\n\n" ++
        jsJoin "\n" (tableLine ["Name", "Age"] ::
          tableLine (List.replicate (["Name", "Age"] : List String).length "---") ::
          [["Alice", "30"]].map tableLine) ++ "\n" := by
  refine ⟨by decide, by decide, ?_⟩
  exact converter_fidelity "Title" "bold" ["Name", "Age"] [["Alice", "30"]]
    (by decide) (by decide) (by decide)
    (by intro s hs; fin_cases hs <;> exact ⟨by decide, by decide⟩)
    (by
      intro r hr s hs
      fin_cases hr
      fin_cases hs <;> exact ⟨by decide, by decide⟩)

/-! ## Workflow progress model
(src/features/import-export/workflows/import.workflow.ts and the export
workflow source)

The durable step executor is modelled by the sequence of progress
records the workflow writes to the status store.  The per-entry import
step (zip fetch + `importSinglePost` + its catch-all) is abstracted as a
delta function of the entry index; the per-post export warnings
(image downloads from the blob store) likewise. -/

/-- JS `a || b` on strings. -/
def jsOrStr (a b : String) : String :=
  if a = "" then b else a

/-- An import report (`ImportReport`): succeeded `(title, slug)` pairs,
failed `(title, reason)` pairs, and warnings. -/
structure ImportReportM where
  succeeded : List (String × String)
  failed : List (String × String)
  warnings : List String
deriving Repr, DecidableEq

/-- A task progress record (`TaskProgress`); `errors` holds
`(post, reason)` pairs. -/
structure TaskProgressM where
  status : String
  total : Nat
  completed : Nat
  current : String
  errors : List (String × String)
  warnings : List String
  downloadKey : Option String
  report : Option ImportReportM
deriving Repr, DecidableEq

/-- A post entry discovered during enumeration (`PostEntry`); the source
field `prefix` is a Lean keyword and is embedded as `pfx`. -/
structure PostEntry where
  dir : String
  title : String
  pfx : String
  mdPath : Option String
deriving Repr, DecidableEq

/-- The per-entry loop of `ImportWorkflow.run`: accumulate each step's
delta into the report and write one `processing` progress record per
entry. -/
def importLoop (total : Nat) (stepDelta : Nat → ImportReportM) :
    Nat → ImportReportM → List PostEntry → ImportReportM × List TaskProgressM
  | _, report, [] => (report, [])
  | i, report, entry :: rest =>
    let delta := stepDelta i
    let report2 : ImportReportM :=
      ⟨report.succeeded ++ delta.succeeded, report.failed ++ delta.failed,
        report.warnings ++ delta.warnings⟩
    let write : TaskProgressM :=
      ⟨"processing", total, i + 1, jsOrStr entry.title entry.dir,
        report2.failed, report2.warnings, none, none⟩
    let r := importLoop total stepDelta (i + 1) report2 rest
    (r.1, write :: r.2)

/-- Embedding of `ImportWorkflow.run` (after a successful enumeration
step yielding `entries`) as the list of progress records written, in
order.  Zero entries short-circuit to a single `completed` record with a
warning; otherwise one `processing` record per entry is followed by the
final `completed` record carrying the report. -/
def importWorkflowRun (entries : List PostEntry)
    (stepDelta : Nat → ImportReportM) : List TaskProgressM :=
  if entries.length = 0 then
    [⟨"completed", 0, 0, "", [], ["ZIP 中没有找到可导入的文章"], none,
      some ⟨[], [], []⟩⟩]
  else
    let r := importLoop entries.length stepDelta 0 ⟨[], [], []⟩ entries
    r.2 ++ [⟨"completed", entries.length, entries.length, "", r.1.failed,
      r.1.warnings, none, some r.1⟩]

/-- A fetched post, as far as the export progress writes read it. -/
structure ExportPost where
  title : String
  slug : String
deriving Repr, DecidableEq

/-- The per-post loop of `ExportWorkflow.run`: warnings accumulate
across posts and each post writes one `processing` record. -/
def exportLoop (total : Nat) (postWarnings : Nat → List String) :
    Nat → List String → List ExportPost → List String × List TaskProgressM
  | _, ws, [] => (ws, [])
  | i, ws, post :: rest =>
    let ws2 := ws ++ postWarnings i
    let write : TaskProgressM :=
      ⟨"processing", total, i + 1, post.title, [], ws2, none, none⟩
    let r := exportLoop total postWarnings (i + 1) ws2 rest
    (r.1, write :: r.2)

/-- Embedding of `ExportWorkflow.run` (after a successful post fetch)
as the list of progress records written, in order.  Zero posts
short-circuit to a single `completed` record with a warning; otherwise
the per-post `processing` records are followed by the `completed`
record carrying the download key. -/
def exportWorkflowRun (taskId : String) (posts : List ExportPost)
    (postWarnings : Nat → List String) : List TaskProgressM :=
  if posts.length = 0 then
    [⟨"completed", 0, 0, "", [], ["没有找到可导出的文章"], none, none⟩]
  else
    let r := exportLoop posts.length postWarnings 0 [] posts
    r.2 ++ [⟨"completed", posts.length, posts.length, "", [], r.1,
      some ("exports/" ++ taskId ++ ".zip"), none⟩]

/-! ## Claim C3 -/

/-- Claim C3: when enumeration finds zero post units, the import task
writes exactly one final progress record with status `completed`,
`total = 0`, `completed = 0` and a non-empty warning list — never
`failed`; and the export workflow behaves the same when zero posts
match. -/
theorem zero_entry_completes (stepDelta : Nat → ImportReportM)
    (taskId : String) (postWarnings : Nat → List String) :
    (∃ p, importWorkflowRun [] stepDelta = [p] ∧ p.status = "completed" ∧
      p.total = 0 ∧ p.completed = 0 ∧ p.warnings ≠ [] ∧ ¬ p.status = "failed") ∧
    (∃ q, exportWorkflowRun taskId [] postWarnings = [q] ∧
      q.status = "completed" ∧ q.total = 0 ∧ q.completed = 0 ∧
      q.warnings ≠ [] ∧ ¬ q.status = "failed") := by
  constructor
  · exact ⟨_, rfl, rfl, rfl, rfl, by decide, by decide⟩
  · exact ⟨_, rfl, rfl, rfl, rfl, by decide, by decide⟩

/-! ## Slugs (src/features/posts/utils/content.ts `slugify`,
src/features/posts/data/posts.data.ts `slugExists` / `findSimilarSlugs`,
src/features/posts/posts.service.ts `generateSlug`)

The posts table is embedded as a list of rows; SQL queries over it
become list traversals. -/

/-- One pass of `.replace(/[\s_]+/g, "-")`: a run of whitespace or
underscores becomes a single dash.  The flag records whether the
previous character belonged to a run. -/
def replaceWsRunsAux : Bool → List Char → List Char
  | _, [] => []
  | inRun, c :: rest =>
    if jsIsWs c || c = '_' then
      if inRun then replaceWsRunsAux true rest
      else '-' :: replaceWsRunsAux true rest
    else c :: replaceWsRunsAux false rest

/-- The character class `[a-z0-9\-一-龥]` kept by `slugify`. -/
def slugifyAllowed (c : Char) : Bool :=
  (97 ≤ c.toNat && c.toNat ≤ 122) || (48 ≤ c.toNat && c.toNat ≤ 57) ||
    c = '-' || (0x4E00 ≤ c.toNat && c.toNat ≤ 0x9FA5)

/-- One pass of the `-{2,}` replace of `slugify`: a run of dashes
becomes a single dash.  The flag records whether the previous character
was a dash. -/
def collapseDashAux : Bool → List Char → List Char
  | _, [] => []
  | prevDash, c :: rest =>
    if c = '-' then
      if prevDash then collapseDashAux true rest
      else '-' :: collapseDashAux true rest
    else c :: collapseDashAux false rest

/-- Embedding of `slugify` (src/features/posts/utils/content.ts):
falsy input short-circuits to `"untitled-log"`; otherwise lowercase,
trim, dash the whitespace/underscore runs, drop everything outside
`[a-z0-9\-一-龥]` (after lowercasing, characters outside ASCII
letters are dropped by this filter whether or not `toLowerCase`
changed them), collapse dash runs, strip edge dashes, and fall back to
`"untitled-log"` when nothing is left. -/
def slugify (text : String) : String :=
  if text = "" then "untitled-log"
  else
    let s1 := (jsTrim (String.mk (text.data.map Char.toLower))).data
    let s2 := replaceWsRunsAux false s1
    let s3 := s2.filter slugifyAllowed
    let s4 := collapseDashAux false s3
    let s5 := ((s4.dropWhile (fun c => c = '-')).reverse.dropWhile
      (fun c => c = '-')).reverse
    if s5 = [] then "untitled-log" else String.mk s5

/-- A row of the posts table, as far as the import path reads and
writes it. -/
structure PostRow where
  id : Nat
  title : String
  slug : String
  summary : Option String
  status : String
  readTimeInMinutes : Int
  contentJson : Option JSONContent
  publishedAt : Option Int

/-- A row of the tags table. -/
structure TagRow where
  id : Nat
  name : String
deriving Repr, DecidableEq

/-- A row of the media table. -/
structure MediaRow where
  key : String
  url : String
  fileName : String
  mimeType : String
  sizeInBytes : Nat
deriving Repr, DecidableEq

/-- The database and blob-store state the import path touches.
`postTags` holds `(postId, tagId)` links, `postMedia` holds
`(postId, mediaKey)` links, `r2` the blob store's objects; the
counters supply fresh row ids and fresh generated keys. -/
structure DbState where
  posts : List PostRow
  tags : List TagRow
  postTags : List (Nat × Nat)
  postMedia : List (Nat × String)
  media : List MediaRow
  r2 : List (String × List Nat)
  nextPostId : Nat
  nextTagId : Nat
  keyCounter : Nat

/-- Embedding of `slugExists` (src/features/posts/data/posts.data.ts):
a row with this slug exists, excluding `excludeId` when that option is
passed and truthy (`if (excludeId)`). -/
def slugExists (posts : List PostRow) (slug : String)
    (excludeId : Option Nat) : Bool :=
  posts.any fun p =>
    decide (p.slug = slug) &&
      (match excludeId with
       | some i => if i = 0 then true else decide (p.id ≠ i)
       | none => true)

/-- Embedding of `findSimilarSlugs`: the slugs of all rows matching
`LIKE 'baseSlug-%'` (the base is a `slugify` image, so it contains no
SQL wildcard and the pattern is a plain prefix test), excluding
`excludeId` when passed and truthy. -/
def findSimilarSlugs (posts : List PostRow) (baseSlug : String)
    (excludeId : Option Nat) : List String :=
  (posts.filter fun p =>
    jsStartsWith p.slug (baseSlug ++ "-") &&
      (match excludeId with
       | some i => if i = 0 then true else decide (p.id ≠ i)
       | none => true)).map (fun p => p.slug)

/-- `parseInt(ds, 10)` on a non-empty digit string. -/
def digitsToNat (l : List Char) : Nat :=
  l.foldl (fun a c => a * 10 + (c.toNat - 48)) 0

/-- The regex `^baseSlug-(\d+)$` of `generateSlug`: the captured
numeric suffix, when the slug matches. -/
def slugSuffixNum (baseSlug slug : String) : Option Nat :=
  if listIsPrefix (baseSlug ++ "-").data slug.data then
    match slug.data.drop (baseSlug ++ "-").data.length with
    | [] => none
    | d :: ds =>
      if (d :: ds).all (fun c => 48 ≤ c.toNat && c.toNat ≤ 57) then
        some (digitsToNat (d :: ds))
      else none
  else none

/-- Embedding of `PostService.generateSlug`
(src/features/posts/posts.service.ts, called with no `excludeId`):
the slugified title if free, else the base slug with the successor of
the largest numeric suffix among the similar slugs. -/
def generateSlug (posts : List PostRow) (title : String) : String :=
  let baseSlug := slugify title
  if slugExists posts baseSlug none = false then baseSlug
  else
    let similar := findSimilarSlugs posts baseSlug none
    let maxSuffix := similar.foldl
      (fun m s =>
        match slugSuffixNum baseSlug s with
        | some n => if n > m then n else m
        | none => m) 0
    baseSlug ++ "-" ++ toString (maxSuffix + 1)

/-! ## Markdown image references
(src/features/import-export/utils/image-rewriter.ts)

The global regex over `![alt](src)` patterns is embedded as a
left-to-right scanner: at each position the pattern either matches —
alt runs to the first `]`, the head of src is any character other than
`)` and src runs greedily to the first `)` — and the scan resumes right
after the match, or the scan advances one character. -/

/-- Match the `![alt](src)` pattern at the head of the character list:
`(alt, src, restAfterMatch)` on success. -/
def tryImageAt : List Char → Option (List Char × List Char × List Char)
  | '!' :: '[' :: rest =>
    let alt := rest.takeWhile (fun c => c ≠ ']')
    (match rest.drop alt.length with
     | ']' :: '(' :: r3 =>
       let src := r3.takeWhile (fun c => c ≠ ')')
       (match src, r3.drop src.length with
        | [], _ => none
        | _ :: _, ')' :: r4 => some (alt, src, r4)
        | _, _ => none)
     | _ => none)
  | _ => none

/-- The scan of `extractMarkdownImages`: the `src` captures of all
matches, left to right.  The fuel starts at the list length, a strict
bound on the number of scan steps. -/
def scanImagesAux : Nat → List Char → List String
  | 0, _ => []
  | _ + 1, [] => []
  | fuel + 1, c :: cs =>
    match tryImageAt (c :: cs) with
    | some (_, src, rest) => String.mk src :: scanImagesAux fuel rest
    | none => scanImagesAux fuel cs

/-- The classification of an image reference: `data:` scheme, then
`http://`/`https://` scheme, else relative. -/
def imageType (src : String) : String :=
  if jsStartsWith src "data:" then "data-uri"
  else if jsStartsWith src "http://" || jsStartsWith src "https://" then
    "remote"
  else "relative"

/-- Embedding of `extractMarkdownImages`: each match's `(original,
type)`. -/
def extractMarkdownImages (markdown : String) : List (String × String) :=
  (scanImagesAux markdown.data.length markdown.data).map
    (fun s => (s, imageType s))

/-- `Map.get` on an association-list embedding of a JS `Map`. -/
def mapGet (m : List (String × String)) (k : String) : Option String :=
  (m.find? (fun p => p.1 = k)).map (fun p => p.2)

/-- The replace pass of `rewriteMarkdownImagePaths`: every match whose
`src` is in the map is rebuilt as `![alt](newSrc)`; any other match —
and any non-matching character — is kept as is. -/
def rewriteImagesAux : Nat → List (String × String) → List Char → List Char
  | 0, _, cs => cs
  | _ + 1, _, [] => []
  | fuel + 1, m, c :: cs =>
    match tryImageAt (c :: cs) with
    | some (alt, src, rest) =>
      (match mapGet m (String.mk src) with
       | some newSrc =>
         '!' :: '[' ::
           (alt ++ ']' :: '(' :: (newSrc.data ++ ')' :: rewriteImagesAux fuel m rest))
       | none =>
         '!' :: '[' ::
           (alt ++ ']' :: '(' :: (src ++ ')' :: rewriteImagesAux fuel m rest)))
    | none => c :: rewriteImagesAux fuel m cs

/-- Embedding of `rewriteMarkdownImagePaths`
(src/features/import-export/utils/image-rewriter.ts). -/
def rewriteMarkdownImagePaths (markdown : String)
    (m : List (String × String)) : String :=
  String.mk (rewriteImagesAux markdown.data.length m markdown.data)

/-! ## Import environment

External collaborators of the import path, abstracted at their
interface boundary: the YAML and JSON parsers, the markdown→tree
converter (`markdownToJsonContent`, built on external markdown/DOM
libraries), the code highlighter, the media key generator and
content-type lookup and image-key extractor of `media.utils`, the
post-media relationship sync, and the JS `Date` codec. -/

structure ImportEnv where
  yamlParse : String → Option JRecord
  jsonParse : String → Option JSONContent
  mdToJson : String → Except String JSONContent
  highlightFn : JSONContent → Except String JSONContent
  keyGen : String → Nat → String
  contentTypeOf : String → Option String
  extractKey : String → Option String
  syncPM : List (Nat × String) → Nat → JSONContent → List (Nat × String)
  dateParse : String → Option Int
  dateFormat : Int → String
  nowMs : Int

/-- Embedding of `listFiles` (src/features/import-export/utils/zip.ts):
the paths under a given path pre fix, in archive order. -/
def listFiles (files : List (String × List Nat)) (pre : String) :
    List String :=
  (files.map (fun p => p.1)).filter (fun p => jsStartsWith p pre)

/-- `mdPath.substring(0, mdPath.lastIndexOf("/"))`: the directory part
of a path, the empty string when the path has no `/`. -/
def dirOfPath (p : String) : String :=
  String.mk (((p.data.reverse.dropWhile (fun c => c ≠ '/')).drop 1).reverse)

/-- `resolvedPath.split("/").pop() || resolvedPath`. -/
def lastSegOr (p : String) : String :=
  jsOrStr (((jsSplit '/' p).getLast?).getD "") p

/-- `getContentTypeFromKey(k) || "application/octet-stream"`. -/
def mimeTypeOf (E : ImportEnv) (k : String) : String :=
  jsOrStr ((E.contentTypeOf k).getD "") "application/octet-stream"

/-! ## Image upload loops
(src/features/import-export/workflows/import-helpers.ts)

The blob store (`env.R2.put`) and the media insert are modelled as
state updates; the model's store always succeeds, so the
upload-failure catch branches are never taken. -/

/-- The per-image loop of `uploadMarkdownImages`: resolve each relative
reference against the markdown file's directory; a path absent from
the archive warns and is skipped, a zero-length payload is skipped
silently, and otherwise the bytes are stored under a fresh generated
key, a media row is inserted, and the rewrite map gains
`original ↦ /images/<newKey>?quality=80`. -/
def umiLoop (E : ImportEnv) (zip : List (String × List Nat))
    (mdDir : String) :
    List String → DbState → List (String × String) → List String →
      DbState × List (String × String) × List String
  | [], st, rm, ws => (st, rm, ws)
  | orig :: rest, st, rm, ws =>
    let resolved := resolveRelativePath mdDir orig
    (match zipLookup zip resolved with
     | none =>
       umiLoop E zip mdDir rest st rm (ws ++ ["图片未在 ZIP 中找到: " ++ orig])
     | some data =>
       if data.length = 0 then umiLoop E zip mdDir rest st rm ws
       else
         let fileName := lastSegOr resolved
         let newKey := E.keyGen fileName st.keyCounter
         let st2 : DbState :=
           { st with
             r2 := st.r2 ++ [(newKey, data)]
             media := st.media ++
               [⟨newKey, "/images/" ++ newKey, fileName, mimeTypeOf E fileName,
                 data.length⟩]
             keyCounter := st.keyCounter + 1 }
         umiLoop E zip mdDir rest st2
           (rm ++ [(orig, "/images/" ++ newKey ++ "?quality=80")]) ws)

/-- Embedding of `uploadMarkdownImages`: scan the markdown for relative
image references, upload them, and rewrite the markdown when any
upload produced a mapping.  Returns the updated state, the rewritten
markdown, and the warnings. -/
def uploadMarkdownImages (E : ImportEnv) (zip : List (String × List Nat))
    (markdown mdDir : String) (st : DbState) :
    DbState × String × List String :=
  let relativeImages :=
    ((extractMarkdownImages markdown).filter
      (fun p => p.2 = "relative")).map (fun p => p.1)
  if relativeImages = [] then (st, markdown, [])
  else
    match umiLoop E zip mdDir relativeImages st [] [] with
    | (st2, rm, ws) =>
      (st2,
        if rm = [] then markdown else rewriteMarkdownImagePaths markdown rm,
        ws)

/-- The per-image loop of `uploadImages` (native mode): each listed
image path still present in the archive and non-empty is stored under
a fresh generated key, a media row is inserted, and the rewrite map
gains `oldKey ↦ newKey`. -/
def uploadImagesLoop (E : ImportEnv) (zip : List (String × List Nat))
    (imgPre : String) :
    List String → DbState → List (String × String) → List String →
      DbState × List (String × String) × List String
  | [], st, rm, ws => (st, rm, ws)
  | imagePath :: rest, st, rm, ws =>
    (match zipLookup zip imagePath with
     | none => uploadImagesLoop E zip imgPre rest st rm ws
     | some data =>
       if data.length = 0 then uploadImagesLoop E zip imgPre rest st rm ws
       else
         let oldKey := jsDrop imagePath imgPre.length
         let newKey := E.keyGen oldKey st.keyCounter
         let st2 : DbState :=
           { st with
             r2 := st.r2 ++ [(newKey, data)]
             media := st.media ++
               [⟨newKey, "/images/" ++ newKey, oldKey, mimeTypeOf E oldKey,
                 data.length⟩]
             keyCounter := st.keyCounter + 1 }
         uploadImagesLoop E zip imgPre rest st2 (rm ++ [(oldKey, newKey)]) ws)

/-- Embedding of `uploadImages`: the native-mode image upload over the
files under `<entry.prefix>/images/`. -/
def uploadImages (E : ImportEnv) (zip : List (String × List Nat))
    (entry : PostEntry) (st : DbState) :
    DbState × List (String × String) × List String :=
  let imgPre := entry.pfx ++ "/images/"
  uploadImagesLoop E zip imgPre (listFiles zip imgPre) st [] []

/-! ## Tree image-path rewrite
(src/features/import-export/utils/image-rewriter.ts
`rewriteImagePaths`)

The source deep-clones the tree and mutates the clone in place; the
embedding rebuilds the tree functionally.  `extractImageKey` lives in
`media.utils`, outside the provided sources, and is the abstract
`extractKey` of the environment. -/

mutual

/-- One node of the `traverse` of `rewriteImagePaths`: an `image` node
with a truthy `src` whose extracted key is truthy and mapped gets
`src := /images/<newKey>?quality=80`; children are traversed in every
case. -/
def rewriteImagePathsNode (extractKey : String → Option String)
    (m : List (String × String)) : JSONContent → JSONContent
  | .mk ty attrs content marks text =>
    let attrs2 :=
      if ty = "image" then
        match attrs with
        | some a =>
          (match a.src with
           | some src =>
             if src ≠ "" then
               match extractKey src with
               | some oldKey =>
                 if oldKey ≠ "" then
                   match mapGet m oldKey with
                   | some newKey =>
                     some { a with
                       src := some ("/images/" ++ newKey ++ "?quality=80") }
                   | none => some a
                 else some a
               | none => some a
             else some a
           | none => some a)
        | none => none
      else attrs
    .mk ty attrs2
      (match content with
       | some l => some (rewriteImagePathsList extractKey m l)
       | none => none) marks text
termination_by n => sizeOf n

/-- `node.content.forEach(traverse)` over a child list. -/
def rewriteImagePathsList (extractKey : String → Option String)
    (m : List (String × String)) : List JSONContent → List JSONContent
  | [] => []
  | n :: rest =>
    rewriteImagePathsNode extractKey m n ::
      rewriteImagePathsList extractKey m rest
termination_by l => sizeOf l

end

/-- Embedding of `rewriteImagePaths`. -/
def rewriteImagePaths (extractKey : String → Option String)
    (m : List (String × String)) (doc : JSONContent) : JSONContent :=
  rewriteImagePathsNode extractKey m doc

/-! ## Tag resolution

`tags.data` is not part of the provided sources. -/

/-- `[...new Set(normalized.tags)]`: deduplication keeping first
occurrences in order. -/
def dedupFirstAux : List String → List String → List String
  | _, [] => []
  | seen, x :: rest =>
    if seen.contains x then dedupFirstAux seen rest
    else x :: dedupFirstAux (x :: seen) rest

/-- `[...new Set(l)]`. -/
def dedupFirst (l : List String) : List String :=
  dedupFirstAux [] l

/-- Modelled from the spec: `findTagByName` of `tags.data` is outside
the provided sources; §7 fixes tag resolution as reuse-by-name. -/
def findTagByName (tags : List TagRow) (name : String) : Option TagRow :=
  tags.find? (fun t => t.name = name)

/-- Modelled from the spec: the find-or-insert loop of step 6 of
`importSinglePost` (reuse-by-name, insert-if-absent, in order),
with `insertTag` of `tags.data` appending a row under a fresh id. -/
def resolveTags : DbState → List String → DbState × List Nat
  | st, [] => (st, [])
  | st, name :: rest =>
    match findTagByName st.tags name with
    | some t =>
      (match resolveTags st rest with
       | (st2, ids) => (st2, t.id :: ids))
    | none =>
      let t : TagRow := ⟨st.nextTagId, name⟩
      let stIns : DbState :=
        { st with tags := st.tags ++ [t], nextTagId := st.nextTagId + 1 }
      (match resolveTags stIns rest with
       | (st2, ids) => (st2, t.id :: ids))

/-! ## `importSinglePost`
(src/features/import-export/workflows/import-helpers.ts) -/

/-- The outcome of step 1 of `importSinglePost` (content parsing):
the raw metadata, the content tree, the warnings gathered so far, and
the state after the markdown-mode pre-conversion image upload. -/
structure Step1Result where
  metadata : JRecord
  contentJson : Option JSONContent
  warnings : List String
  st : DbState

/-- Embedding of step 1 of `importSinglePost`.  Native mode reads
`<prefix>/content.json` (preferred) and the metadata of
`<prefix>/index.md`, converting the markdown body only when no tree
was read; it performs no state mutation.  Markdown mode reads the
entry's markdown file and, when the body is non-blank, uploads the
relative images (mutating the state) and rewrites the markdown before
conversion.  A conversion error is a warning, not a failure. -/
def importStep1 (E : ImportEnv) (zip : List (String × List Nat))
    (entry : PostEntry) (mode : String) (st : DbState) : Step1Result :=
  if mode = "native" then
    let rawJson := readJsonFile E.jsonParse zip (entry.pfx ++ "/content.json")
    match readTextFile zip (entry.pfx ++ "/index.md") with
    | none => ⟨[], rawJson, [], st⟩
    | some md =>
      if md = "" then ⟨[], rawJson, [], st⟩
      else
        match parseFrontmatter E.yamlParse md with
        | (data, content) =>
          if rawJson.isNone && !(jsTrim content = "") then
            match E.mdToJson content with
            | .ok c => ⟨data, some c, [], st⟩
            | .error e => ⟨data, rawJson, ["Markdown 转换失败: " ++ e], st⟩
          else ⟨data, rawJson, [], st⟩
  else
    let mdPath :=
      match entry.mdPath with
      | some p => jsOrStr p (entry.pfx ++ "/" ++ entry.dir ++ ".md")
      | none => entry.pfx ++ "/" ++ entry.dir ++ ".md"
    match readTextFile zip mdPath with
    | none => ⟨[], none, [], st⟩
    | some md =>
      if md = "" then ⟨[], none, [], st⟩
      else
        match parseFrontmatter E.yamlParse md with
        | (data, content) =>
          if jsTrim content = "" then ⟨data, none, [], st⟩
          else
            match uploadMarkdownImages E zip content (dirOfPath mdPath) st with
            | (st2, rewritten, ws1) =>
              match E.mdToJson rewritten with
              | .ok c => ⟨data, some c, ws1, st2⟩
              | .error e => ⟨data, none, ws1 ++ ["Markdown 转换失败: " ++ e], st2⟩

/-- The return record of `importSinglePost`; the non-skip return omits
`skipped`, which reads back `undefined`, i.e. `false`. -/
structure ImportResult where
  title : String
  slug : String
  skipped : Bool
  warnings : List String
deriving Repr, DecidableEq

/-- Embedding of `importSinglePost`: parse content (step 1), normalize
the metadata (throwing on failure), skip on slug collision (step 2),
and otherwise upload the native-mode images, highlight, generate a
unique slug, resolve the tags, insert the post, link the tags and sync
the post-media relationships (steps 3–9). -/
def importSinglePost (E : ImportEnv) (zip : List (String × List Nat))
    (entry : PostEntry) (mode : String) (st : DbState) :
    Except String ImportResult × DbState :=
  let s1 := importStep1 E zip entry mode st
  match normalizeFrontmatter E.dateParse E.dateFormat s1.metadata with
  | none => (.error "无法解析文章元数据或元数据不符合规范", s1.st)
  | some n =>
    let title := jsOrStr n.title "Untitled"
    let candidateSlug := jsOrStr n.slug title
    if slugExists s1.st.posts (slugify candidateSlug) none = true then
      (.ok ⟨title, candidateSlug, true, s1.warnings⟩, s1.st)
    else
      let s3 : DbState × Option JSONContent × List String :=
        match s1.contentJson with
        | some c =>
          if mode = "native" then
            match uploadImages E zip entry s1.st with
            | (stA, rm, wsA) =>
              (stA,
                some (if rm = [] then c else rewriteImagePaths E.extractKey rm c),
                s1.warnings ++ wsA)
          else (s1.st, some c, s1.warnings)
        | none => (s1.st, none, s1.warnings)
      let cj4 : Option JSONContent :=
        match s3.2.1 with
        | some c => some (match E.highlightFn c with | .ok h => h | .error _ => c)
        | none => none
      let slug := generateSlug s3.1.posts (jsOrStr n.slug title)
      match resolveTags s3.1 (dedupFirst n.tags) with
      | (st3, tagIds) =>
        let pubAt : Option Int :=
          match n.publishedAt with
          | some s =>
            if s = "" then (if n.status = "draft" then none else some E.nowMs)
            else E.dateParse s
          | none => if n.status = "draft" then none else some E.nowMs
        let row : PostRow :=
          ⟨st3.nextPostId, title, slug, n.summary,
            (if n.status = "draft" then "draft" else "published"),
            n.readTimeInMinutes, cj4, pubAt⟩
        let st4 : DbState :=
          { st3 with
            posts := st3.posts ++ [row]
            nextPostId := st3.nextPostId + 1 }
        let st5 : DbState :=
          if tagIds = [] then st4
          else
            { st4 with
              postTags := st4.postTags ++ tagIds.map (fun t => (row.id, t)) }
        let st6 : DbState :=
          match cj4 with
          | some c => { st5 with postMedia := E.syncPM st5.postMedia row.id c }
          | none => st5
        (.ok ⟨row.title, row.slug, false, s3.2.2⟩, st6)

/-! ## What the pre-skip phase can and cannot mutate -/

/-- The relational rows the slug-collision claim is about: posts,
tags, post-tag links and post-media links. -/
def dbCore (st : DbState) :
    List PostRow × List TagRow × List (Nat × Nat) × List (Nat × String) :=
  (st.posts, st.tags, st.postTags, st.postMedia)

/-- The markdown-image upload loop touches only the media table, the
blob store and the key counter. -/
theorem umiLoop_core (E : ImportEnv) (zip : List (String × List Nat))
    (mdDir : String) :
    ∀ (imgs : List String) (st : DbState) (rm : List (String × String))
      (ws : List String),
      dbCore (umiLoop E zip mdDir imgs st rm ws).1 = dbCore st := by
  intro imgs
  induction imgs with
  | nil => intro st rm ws; rfl
  | cons orig rest ih =>
    intro st rm ws
    simp only [umiLoop]
    split
    · exact ih st rm _
    · split
      · exact ih st rm ws
      · exact ih _ _ ws

/-- `uploadMarkdownImages` touches only the media table, the blob
store and the key counter. -/
theorem uploadMarkdownImages_core (E : ImportEnv)
    (zip : List (String × List Nat)) (markdown mdDir : String)
    (st : DbState) :
    dbCore (uploadMarkdownImages E zip markdown mdDir st).1 = dbCore st := by
  simp only [uploadMarkdownImages]
  split
  · rfl
  · exact umiLoop_core E zip mdDir _ st [] []

/-- Step 1 of `importSinglePost` touches only the media table, the
blob store and the key counter, and in native mode does not touch the
state at all. -/
theorem importStep1_core (E : ImportEnv) (zip : List (String × List Nat))
    (entry : PostEntry) (mode : String) (st : DbState) :
    dbCore (importStep1 E zip entry mode st).st = dbCore st ∧
      (mode = "native" → (importStep1 E zip entry mode st).st = st) := by
  constructor
  · simp only [importStep1]
    split
    · repeat' split
      all_goals rfl
    · split
      · rfl
      · split
        · rfl
        · split
          · rfl
          · split
            · exact uploadMarkdownImages_core _ _ _ _ _
            · exact uploadMarkdownImages_core _ _ _ _ _
  · intro hm
    subst hm
    simp only [importStep1]
    split
    · repeat' split
      all_goals rfl
    · rename_i hcon
      simp at hcon

/-- Claim C1 (amended): for every import entry whose candidate slug
(the normalized slug, else the title, passed through `slugify`)
already exists in post storage, `importSinglePost` returns a result
with `skipped = true` and inserts no post, tag, post-tag link or
post-media link in either mode; in native mode it performs no mutation
at all.  (In markdown mode, media rows and blob objects for the
entry's relative images may already have been inserted by the
pre-conversion image upload of step 1, which runs before the slug
check — so "no database mutation" does not extend to the media
table.) -/
theorem importSinglePost_slug_collision (E : ImportEnv)
    (zip : List (String × List Nat)) (entry : PostEntry) (mode : String)
    (st : DbState) (n : PostFrontmatter)
    (hn : normalizeFrontmatter E.dateParse E.dateFormat
      (importStep1 E zip entry mode st).metadata = some n)
    (hex : slugExists (importStep1 E zip entry mode st).st.posts
      (slugify (jsOrStr n.slug (jsOrStr n.title "Untitled"))) none = true) :
    ∃ r st2, importSinglePost E zip entry mode st = (Except.ok r, st2) ∧
      r.skipped = true ∧ st2.posts = st.posts ∧ st2.tags = st.tags ∧
      st2.postTags = st.postTags ∧ st2.postMedia = st.postMedia ∧
      (mode = "native" → st2 = st) := by
  have hrun : importSinglePost E zip entry mode st =
      (Except.ok ⟨jsOrStr n.title "Untitled",
        jsOrStr n.slug (jsOrStr n.title "Untitled"), true,
        (importStep1 E zip entry mode st).warnings⟩,
       (importStep1 E zip entry mode st).st) := by
    simp only [importSinglePost]
    split
    · rename_i heq
      rw [hn] at heq
      cases heq
    · rename_i n2 heq
      rw [hn] at heq
      obtain rfl := Option.some.inj heq
      rw [if_pos hex]
  obtain ⟨hcore, hnat⟩ := importStep1_core E zip entry mode st
  refine ⟨_, _, hrun, rfl, ?_, ?_, ?_, ?_, hnat⟩
  · exact congrArg (fun q => q.1) hcore
  · exact congrArg (fun q => q.2.1) hcore
  · exact congrArg (fun q => q.2.2.1) hcore
  · exact congrArg (fun q => q.2.2.2) hcore

/-! ## Concrete inputs for the slug-collision claim -/

/-- A concrete YAML parser for the single metadata block the concrete
inputs use. -/
def cexYaml : String → Option JRecord :=
  fun s => if s = "title: T" then some [("title", JValue.str "T")] else none

/-- A concrete import environment: YAML per `cexYaml`, a markdown
converter that always fails (a warning, never an error), sequentially
generated media keys, and the trivial date codec. -/
def cexEnv : ImportEnv :=
  { yamlParse := cexYaml
    jsonParse := fun _ => none
    mdToJson := fun _ => Except.error "unsupported"
    highlightFn := fun c => Except.ok c
    keyGen := fun _ c => "k" ++ toString c
    contentTypeOf := fun _ => none
    extractKey := fun s => some s
    syncPM := fun pm _ _ => pm
    dateParse := dateParse0
    dateFormat := dateFormat0
    nowMs := 0 }

/-- A stored post occupying the slug `t` (the `slugify` image of the
incoming title `T`). -/
def cexPost : PostRow := ⟨1, "T", "t", none, "published", 1, none, none⟩

/-- The starting state: one post, no tags, no links, no media, empty
blob store. -/
def cexSt : DbState := ⟨[cexPost], [], [], [], [], [], 2, 1, 0⟩

/-- A markdown-mode entry: a markdown file with a colliding title and
one relative image that is present in the archive. -/
def cexMd : String := "---\ntitle: T\n---\n![x](img.png)"

/-- The markdown-mode archive. -/
def cexZip : List (String × List Nat) :=
  [("post.md", strToU8 cexMd), ("img.png", [137])]

/-- The markdown-mode entry record. -/
def cexEntry : PostEntry := ⟨"post", "T", "", some "post.md"⟩

/-- A native-mode archive: metadata only, no body, no content tree. -/
def witZip : List (String × List Nat) :=
  [("p/index.md", strToU8 "---\ntitle: T\n---\n")]

/-- The native-mode entry record. -/
def witEntry : PostEntry := ⟨"d", "T", "p", none⟩

/-- Claim C1, counterexample to the frozen statement: in markdown mode
the relative-image upload of step 1 runs before the slug check, so
this colliding entry is skipped (`skipped = true`) and yet one media
row has been inserted into a previously media-free state — the claim's
"no media row is inserted" is false for markdown mode. -/
theorem importSinglePost_slug_collision_cex :
    (importSinglePost cexEnv cexZip cexEntry "markdown" cexSt).1 =
      Except.ok ⟨"T", "T", true, ["Markdown 转换失败: unsupported"]⟩ ∧
    cexSt.media.length = 0 ∧
    (importSinglePost cexEnv cexZip cexEntry "markdown" cexSt).2.media.length
      = 1 := by
  refine ⟨?_, rfl, ?_⟩
  · rfl
  · decide

/-- Claim C1, witness: the amended theorem applied to the concrete
native-mode entry whose title `T` collides with the stored slug `t`;
the skip leaves the state untouched. -/
theorem importSinglePost_slug_collision_witness :
    ∃ r st2,
      importSinglePost cexEnv witZip witEntry "native" cexSt =
        (Except.ok r, st2) ∧
      r.skipped = true ∧ st2.posts = cexSt.posts ∧ st2.tags = cexSt.tags ∧
      st2.postTags = cexSt.postTags ∧ st2.postMedia = cexSt.postMedia ∧
      ("native" = "native" → st2 = cexSt) :=
  importSinglePost_slug_collision cexEnv witZip witEntry "native" cexSt
    ⟨"T", "", none, "published", none, none, none, 1, []⟩
    (by decide) (by decide)
